import Mathlib

/-!
The table-driven state machine engine of `switch.go`

A shallow embedding of the engine (`getNextState`, `SendEvent`), of the
light-switch configuration (`newLightSwitchFSM`), of the order pipeline
(`order.go`, `newOrderFSM`) and of the traffic light of `main.go`, followed by
the properties proved about them.

Modelling conventions
* `StateType` and `EventType` are Go string types; they are Lean strings.
* A Go map literal is the list of its key/value pairs, read with `lookup`
  (first match).  `Events` keeps the difference between a nil map and an empty
  map (`Option`), because `getNextState` tests `state.Events != nil`.
* An `Action` is the function computed by its `Execute` method: from the event
  context to the event it returns together with the context as the method left
  it (the contexts are pointers that `Execute` may write through), to a panic,
  or to `blocks` for a call of `Execute` that never returns.  Printing is not
  modelled.
* `for { ... }` in `SendEvent` has no bound, so `SendEvent` takes a number of
  loop iterations it may perform (`fuel`); `none` means that the call has not
  ended within them: the loop is still running when the fuel is used up, or an
  `Execute` it called never returns.
* The mutex is not modelled: every call below runs alone.
-/

namespace StateMachineGo

/-! ## Data model (`switch.go`, lines 9-61) -/

/-- StateType represents an extensible state type in the state machine. -/
abbrev StateType := String

/-- EventType represents an extensible event type in the state machine. -/
abbrev EventType := String

/-- Default represents the default state of the system. -/
abbrev Default : StateType := ""

/-- NoOp represents the no-op event. -/
abbrev NoOp : EventType := "NoOp"

/-- The values of Go type `error` that the engine returns: `nil`, or
`ErrEventRejected`, the error returned when the state machine cannot process
an event in the state that it is in. -/
inductive Error where
  | nil
  | ErrEventRejected
  deriving DecidableEq, Repr

/-- Reading a Go map at a key: `v, ok := m[k]`, with `none` for `ok = false`. -/
def lookup {α β : Type} [DecidableEq α] (k : α) : List (α × β) → Option β
  | [] => none
  | (k', v) :: rest => if k = k' then some v else lookup k rest

/-- How a call of `Execute` goes: it returns an event, it panics (a failed
type assertion on the context, for instance), both with the context as the call
left it, or it never returns (it blocks or loops for ever). -/
inductive Executed (κ : Type) where
  | returns (event : EventType) (ctx : κ)
  | panics (ctx : κ)
  | blocks

/-- Action represents the action to be executed in the given state: its
`Execute(eventCtx EventContext) EventType`, over contexts of type `κ`. -/
abbrev Action (κ : Type) := κ → Executed κ

/-- Events represents a mapping of events and states; `none` is the nil map. -/
abbrev Events := Option (List (EventType × StateType))

/-- State binds a state with an action and a set of events it can handle.
`Action = none` is the nil interface value. -/
structure State (κ : Type) where
  Action : Option (Action κ)
  Events : Events

/-- States represents a mapping of states and their implementations. -/
abbrev States (κ : Type) := List (StateType × State κ)

/-- StateMachine represents the state machine (without its mutex). -/
structure StateMachine (κ : Type) where
  Previous : StateType
  Current : StateType
  States : States κ

/-- The two runtime panics a call of `SendEvent` can end in: the call
`state.Action.Execute(eventCtx)` on a nil `Action` (line 103), and a panic
raised inside `Execute`. -/
inductive Panic where
  | nilAction
  | inAction
  deriving DecidableEq, Repr

/-- How a call of `SendEvent` hands control back: by returning an `error`
value, or by a panic unwinding through it. -/
inductive Exit where
  | returned (err : Error)
  | panicked (p : Panic)
  deriving DecidableEq, Repr

/-- What is observable once a call of `SendEvent` is over: how it ended, the
machine and the event context as the call left them. -/
structure Outcome (κ : Type) where
  exit : Exit
  machine : StateMachine κ
  ctx : κ

/-! ## The engine (`switch.go`, lines 64-109) -/

/-- The function `getNextState` returns the next state for the event given the
machine's current state, or an error if the event cannot be handled in the
given state. -/
def getNextState {κ : Type} (s : StateMachine κ) (event : EventType) : StateType × Error :=
  match lookup s.Current s.States with
  | some state =>
    match state.Events with
    | some events =>
      match lookup event events with
      | some next => (next, Error.nil)
      | none => (Default, Error.ErrEventRejected)
    | none => (Default, Error.ErrEventRejected)
  | none => (Default, Error.ErrEventRejected)

/-- The value of `state` after `state, ok := s.States[nextState]`: the entry
of the table, or the zero `State` (nil `Action`, nil `Events`) when the key is
missing. -/
def stateOf {κ : Type} (states : States κ) (nextState : StateType) : State κ :=
  match lookup nextState states with
  | some state => state
  | none => { Action := none, Events := none }

/-- The function `SendEvent` sends an event to the state machine: at most
`fuel` iterations of its loop.  The branch `if !ok || state.Action == nil` of
the source has an empty body, so both cases go on to the assignments and to
`state.Action.Execute`, which panics on the nil `Action`.  A call of `Execute`
that never returns leaves the call of `SendEvent` without an outcome, whatever
the fuel. -/
def SendEvent {κ : Type} (fuel : Nat) (s : StateMachine κ) (event : EventType) (eventCtx : κ) :
    Option (Outcome κ) :=
  match fuel with
  | 0 => none
  | fuel + 1 =>
    match getNextState s event with
    | (_, Error.ErrEventRejected) =>
      some { exit := Exit.returned Error.ErrEventRejected, machine := s, ctx := eventCtx }
    | (nextState, Error.nil) =>
      let state := stateOf s.States nextState
      let s1 : StateMachine κ := { s with Previous := s.Current, Current := nextState }
      match state.Action with
      | none => some { exit := Exit.panicked Panic.nilAction, machine := s1, ctx := eventCtx }
      | some action =>
        match action eventCtx with
        | Executed.panics ctx1 =>
          some { exit := Exit.panicked Panic.inAction, machine := s1, ctx := ctx1 }
        | Executed.blocks => none
        | Executed.returns nextEvent ctx1 =>
          if nextEvent = NoOp then
            some { exit := Exit.returned Error.nil, machine := s1, ctx := ctx1 }
          else SendEvent fuel s1 nextEvent ctx1

/-- A caller sending events one after another to one machine, each with its
own context, as `TestLightSwitchStateMacine` does: the outcomes of the calls in
order, or `none` when one of them is still running after `fuel` iterations.  A
call that panicked has released the mutex (`defer`), so a caller that recovers
goes on with the machine as the panic left it. -/
def SendEvents {κ : Type} (fuel : Nat) (s : StateMachine κ) :
    List (EventType × κ) → Option (List (Outcome κ))
  | [] => some []
  | (event, eventCtx) :: rest =>
    match SendEvent fuel s event eventCtx with
    | none => none
    | some o =>
      match SendEvents fuel o.machine rest with
      | none => none
      | some os => some (o :: os)

/-! ## The light switch (`switch.go`, lines 112-159) -/

abbrev Off : StateType := "Off"
abbrev On : StateType := "On"
abbrev SwitchOff : EventType := "SwitchOff"
abbrev SwitchOn : EventType := "SwitchOn"

/-- OffAction represents the action executed on entering the off state. -/
def OffAction {κ : Type} : Action κ := fun eventCtx => Executed.returns NoOp eventCtx

/-- OnAction represents the action executed on entering the On state. -/
def OnAction {κ : Type} : Action κ := fun eventCtx => Executed.returns NoOp eventCtx

/-- The light-switch machine; `Previous` and `Current` have their zero value,
the empty string, which is `Default`. -/
def newLightSwitchFSM {κ : Type} : StateMachine κ :=
  { Previous := ""
    Current := ""
    States :=
      [ (Default, { Action := none, Events := some [(SwitchOff, Off)] }),
        (Off, { Action := some OffAction, Events := some [(SwitchOn, On)] }),
        (On, { Action := some OnAction, Events := some [(SwitchOff, Off)] }) ] }

/-! ## The order pipeline (`order.go`) -/

abbrev CreatingOrder : StateType := "CreatingOrder"
abbrev OrderFailed : StateType := "OrderFailed"
abbrev OrderPlaced : StateType := "OrderPlaced"
abbrev ChargingCard : StateType := "ChargingCard"
abbrev TransactionFailed : StateType := "TransactionFailed"
abbrev OrderShipped : StateType := "OrderShipped"

abbrev CreateOrder : EventType := "CreateOrder"
abbrev FailOrder : EventType := "FailOrder"
abbrev PlaceOrder : EventType := "PlaceOrder"
abbrev ChargeCard : EventType := "ChargeCard"
abbrev FailTransaction : EventType := "FailTransaction"
abbrev ShipOrder : EventType := "ShipOrder"

/-- The struct `OrderCreationContext`; `err` is `none` for a nil error and
`some msg` for `errors.New(msg)`. -/
structure OrderCreationContext where
  items : List String
  err : Option String
  deriving DecidableEq, Repr

/-- The struct `OrderShipmentContext`. -/
structure OrderShipmentContext where
  cardNumber : String
  address : String
  err : Option String
  deriving DecidableEq, Repr

/-- EventContext represents the context to be passed to the action
implementation (`interface{}`), for the order machine: nil, a pointer to an
`OrderCreationContext` or a pointer to an `OrderShipmentContext`. -/
inductive EventContext where
  | nil
  | creation (order : OrderCreationContext)
  | shipment (shipment : OrderShipmentContext)
  deriving DecidableEq, Repr

/-- The method `CreatingOrderAction.Execute`. -/
def CreatingOrderAction : Action EventContext := fun eventCtx =>
  match eventCtx with
  | EventContext.creation order =>
    if order.items.length = 0 then
      Executed.returns FailOrder
        (EventContext.creation { order with err := some "Insufficient number of items in order" })
    else Executed.returns PlaceOrder eventCtx
  | _ => Executed.panics eventCtx

/-- The method `OrderFailedAction.Execute`. -/
def OrderFailedAction : Action EventContext := fun eventCtx =>
  match eventCtx with
  | EventContext.creation _ => Executed.returns NoOp eventCtx
  | _ => Executed.panics eventCtx

/-- The method `OrderPlacedAction.Execute`. -/
def OrderPlacedAction : Action EventContext := fun eventCtx =>
  match eventCtx with
  | EventContext.creation _ => Executed.returns NoOp eventCtx
  | _ => Executed.panics eventCtx

/-- The method `ChargingCardAction.Execute`. -/
def ChargingCardAction : Action EventContext := fun eventCtx =>
  match eventCtx with
  | EventContext.shipment shipment =>
    if shipment.cardNumber = "" then
      Executed.returns FailTransaction
        (EventContext.shipment { shipment with err := some "Card number is invalid" })
    else Executed.returns ShipOrder eventCtx
  | _ => Executed.panics eventCtx

/-- The method `TransactionFailedAction.Execute`. -/
def TransactionFailedAction : Action EventContext := fun eventCtx =>
  match eventCtx with
  | EventContext.shipment _ => Executed.returns NoOp eventCtx
  | _ => Executed.panics eventCtx

/-- The method `OrderShippedAction.Execute`. -/
def OrderShippedAction : Action EventContext := fun eventCtx =>
  match eventCtx with
  | EventContext.shipment _ => Executed.returns NoOp eventCtx
  | _ => Executed.panics eventCtx

/-- The order machine, in its zero-valued start state `Default`. -/
def newOrderFSM : StateMachine EventContext :=
  { Previous := ""
    Current := ""
    States :=
      [ (Default, { Action := none, Events := some [(CreateOrder, CreatingOrder)] }),
        (CreatingOrder,
          { Action := some CreatingOrderAction
            Events := some [(FailOrder, OrderFailed), (PlaceOrder, OrderPlaced)] }),
        (OrderFailed,
          { Action := some OrderFailedAction, Events := some [(CreateOrder, CreatingOrder)] }),
        (OrderPlaced,
          { Action := some OrderPlacedAction, Events := some [(ChargeCard, ChargingCard)] }),
        (ChargingCard,
          { Action := some ChargingCardAction
            Events := some [(FailTransaction, TransactionFailed), (ShipOrder, OrderShipped)] }),
        (TransactionFailed,
          { Action := some TransactionFailedAction, Events := some [(ChargeCard, ChargingCard)] }),
        (OrderShipped, { Action := some OrderShippedAction, Events := none }) ] }

/-! ## Vocabulary of the properties -/

/-- The event table of state `S` in a state table: the pairs of its `Events`
map, and no pair at all when `S` is not a key of the table or its `Events` is
the nil map.  State `S` maps event `E` to `T` when
`lookup E (eventTable states S) = some T`. -/
def eventTable {κ : Type} (states : States κ) (S : StateType) : List (EventType × StateType) :=
  match lookup S states with
  | some state =>
    match state.Events with
    | some events => events
    | none => []
  | none => []

/-- The four ways the loop of `SendEvent` stops: an action returned `NoOp`
(`return nil`), `getNextState` refused the event (`return ErrEventRejected`),
the state entered has a nil `Action`, or `Execute` panicked. -/
inductive Stop where
  | settled
  | rejected
  | nilAction
  | actionPanic
  deriving DecidableEq, Repr

/-- How the call ends for each way of stopping. -/
def Stop.exit : Stop → Exit
  | Stop.settled => Exit.returned Error.nil
  | Stop.rejected => Exit.returned Error.ErrEventRejected
  | Stop.nilAction => Exit.panicked Panic.nilAction
  | Stop.actionPanic => Exit.panicked Panic.inAction

/-- A rejection is found by one more call of `getNextState`, after the last
transition; the other stops happen in the iteration of the last transition. -/
def Stop.extra : Stop → Nat
  | Stop.rejected => 1
  | _ => 0

/-- A chain of accepted transitions.  `chain states S E ctx [T₁, ..., Tₙ]` is
`some (stop, ctx1)` when, from state `S`, event `E` is accepted into `T₁`, the
action of `T₁` returns an event other than `NoOp` that `T₁` maps to `T₂`, and so
on up to `Tₙ`, after which the loop stops as `stop` says, the context being
`ctx1` by then; it is `none` when the list is not the chain of `E` from `S`, or
when an `Execute` along it never returns. -/
def chain {κ : Type} (states : States κ) :
    StateType → EventType → κ → List StateType → Option (Stop × κ)
  | S, E, ctx, [] =>
    if lookup E (eventTable states S) = none then some (Stop.rejected, ctx) else none
  | S, E, ctx, T :: rest =>
    if lookup E (eventTable states S) = some T then
      match (stateOf states T).Action with
      | none => if rest = [] then some (Stop.nilAction, ctx) else none
      | some action =>
        match action ctx with
        | Executed.panics ctx1 => if rest = [] then some (Stop.actionPanic, ctx1) else none
        | Executed.blocks => none
        | Executed.returns E2 ctx1 =>
          if E2 = NoOp then (if rest = [] then some (Stop.settled, ctx1) else none)
          else chain states T E2 ctx1 rest
    else none

/-- The machine after the transitions into the listed states, one after the
other: the assignments `s.Previous = s.Current; s.Current = nextState` of lines
99-100, once per state. -/
def StateMachine.after {κ : Type} (s : StateMachine κ) : List StateType → StateMachine κ
  | [] => s
  | T :: rest => StateMachine.after { s with Previous := s.Current, Current := T } rest

/-- What a caller can compare of an outcome: how the call ended, `Previous`
and `Current`. -/
def Outcome.observe {κ : Type} (o : Outcome κ) : Exit × StateType × StateType :=
  (o.exit, o.machine.Previous, o.machine.Current)

/-! ## Small tables used as concrete inputs -/

/-- A table in which `Default` maps `Start` to `Busy`, whose action returns the
event `Finish`, which `Busy` does not accept. -/
def rejectingChainFSM : StateMachine Unit :=
  { Previous := ""
    Current := ""
    States :=
      [ (Default, { Action := none, Events := some [("Start", "Busy")] }),
        ("Busy", { Action := some (fun ctx => Executed.returns "Finish" ctx), Events := some [] }) ] }

/-- A table in which `Default` maps `Start` to `Running`, an entry without
`Action`, and `Skip` to `Elsewhere`, which is not a key of the table. -/
def noActionFSM : StateMachine Unit :=
  { Previous := ""
    Current := ""
    States :=
      [ (Default, { Action := none, Events := some [("Start", "Running"), ("Skip", "Elsewhere")] }),
        ("Running", { Action := none, Events := some [("Stop", Default)] }) ] }

/-- A table in which the action of `Spin` returns `Ping`, which `Spin` maps to
`Spin` again. -/
def loopFSM : StateMachine Unit :=
  { Previous := ""
    Current := ""
    States :=
      [ (Default, { Action := none, Events := some [("Ping", "Spin")] }),
        ("Spin", { Action := some (fun ctx => Executed.returns "Ping" ctx),
                   Events := some [("Ping", "Spin")] }) ] }

/-- A table in which the action of `Waiting` never returns. -/
def blockingFSM : StateMachine Unit :=
  { Previous := ""
    Current := ""
    States :=
      [ (Default, { Action := none, Events := some [("Wait", "Waiting")] }),
        ("Waiting", { Action := some (fun _ => Executed.blocks), Events := none }) ] }

/-- A rank on the states of the order machine: `CreatingOrder` and
`ChargingCard`, whose actions emit events, are above the states those events
lead to. -/
def orderRank (S : StateType) : Nat :=
  if S = CreatingOrder ∨ S = ChargingCard then 1 else 0

/-- The states that events of the table lead to: the values of every `Events`
map of the table. -/
def destinations {κ : Type} : States κ → List StateType
  | [] => []
  | (_, state) :: rest =>
    (match state.Events with
      | some events => events.map Prod.snd
      | none => []) ++ destinations rest

/-- A state is a key of the table and its entry has a non-nil `Action`. -/
def hasAction {κ : Type} (states : States κ) (T : StateType) : Bool :=
  match lookup T states with
  | some state => state.Action.isSome
  | none => false

/-- A well-formed table: every state named as the destination of some event is
a key of the table and has a non-nil `Action`. -/
def wellFormed {κ : Type} (states : States κ) : Bool :=
  (destinations states).all (hasAction states)

/-- A state is a key of the table. -/
def isKey {κ : Type} (states : States κ) (T : StateType) : Bool :=
  (lookup T states).isSome

/-- A closed table: every state named as the destination of some event is a key
of the table. -/
def closedTable {κ : Type} (states : States κ) : Bool :=
  (destinations states).all (isKey states)

/-- The states of the order machine in which a call can settle; the other two,
`CreatingOrder` and `ChargingCard`, have actions that always emit an event. -/
def settledStates : List StateType :=
  [Default, OrderFailed, OrderPlaced, TransactionFailed, OrderShipped]

/-- The context is a pointer to an `OrderCreationContext`. -/
def isCreation : EventContext → Bool
  | EventContext.creation _ => true
  | _ => false

/-- The context is a pointer to an `OrderShipmentContext`. -/
def isShipment : EventContext → Bool
  | EventContext.shipment _ => true
  | _ => false

/-- A call of a caller that sends `CreateOrder` with an `OrderCreationContext`
and `ChargeCard` with an `OrderShipmentContext` (other events with anything). -/
def disciplined (call : EventType × EventContext) : Bool :=
  (if call.1 = CreateOrder then isCreation call.2 else true) &&
  (if call.1 = ChargeCard then isShipment call.2 else true)

/-- The context has the type that the action of state `T` of the order machine
asserts: `*OrderCreationContext` for `CreatingOrder`, `OrderFailed` and
`OrderPlaced`, `*OrderShipmentContext` for `ChargingCard`, `TransactionFailed`
and `OrderShipped`. -/
def expects (T : StateType) (ctx : EventContext) : Bool :=
  if T = CreatingOrder ∨ T = OrderFailed ∨ T = OrderPlaced then isCreation ctx
  else if T = ChargingCard ∨ T = TransactionFailed ∨ T = OrderShipped then isShipment ctx
  else true

/-! ## The traffic light (`main.go`) -/

/-- The three implementations of the interface `TrafficState`. -/
inductive TrafficState where
  | RedLight
  | GreenLight
  | YellowLight
  deriving DecidableEq, Repr

/-- The struct `TrafficStateMachine`; `states` is the map made by
`NewStateMachine`, which nothing writes to. -/
structure TrafficStateMachine where
  currentState : TrafficState
  states : List (String × TrafficState)
  deriving DecidableEq, Repr

/-- The method `Enter` of each light: the line it prints (it then sleeps five
seconds, which is not modelled). -/
def TrafficState.Enter : TrafficState → String
  | TrafficState.RedLight => "Red light is on. Stop driving"
  | TrafficState.GreenLight => "Green light is on. You can drive."
  | TrafficState.YellowLight => "Yellow light is on. Prepare to stop."

/-- The method `setState`: the machine with the new current state, and the line
that `Enter` of the new state printed. -/
def TrafficStateMachine.setState (sm : TrafficStateMachine) (s : TrafficState) :
    TrafficStateMachine × String :=
  ({ sm with currentState := s }, s.Enter)

/-- The method `Update` of each light. -/
def TrafficState.Update : TrafficState → TrafficStateMachine → TrafficStateMachine × String
  | TrafficState.RedLight, l => l.setState TrafficState.GreenLight
  | TrafficState.GreenLight, l => l.setState TrafficState.YellowLight
  | TrafficState.YellowLight, l => l.setState TrafficState.RedLight

/-- The method `Transition`. -/
def TrafficStateMachine.Transition (sm : TrafficStateMachine) : TrafficStateMachine × String :=
  sm.currentState.Update sm

/-- The function `NewStateMachine`: the machine and the line printed by `Enter`
of the initial state. -/
def NewStateMachine (initialState : TrafficState) : TrafficStateMachine × String :=
  ({ currentState := initialState, states := [] }, initialState.Enter)

/-- The first `n` iterations of the loop of `main`, `for { sm.Transition() }`,
from machine `sm`: the machine reached and the lines printed, in order. -/
def transitions : Nat → TrafficStateMachine → TrafficStateMachine × List String
  | 0, sm => (sm, [])
  | n + 1, sm =>
    let step := sm.Transition
    let later := transitions n step.1
    (later.1, step.2 :: later.2)

/-! ## Lemmas on the engine -/

theorem getNextState_none {κ : Type} (s : StateMachine κ) (event : EventType)
    (h : lookup event (eventTable s.States s.Current) = none) :
    getNextState s event = (Default, Error.ErrEventRejected) := by
  unfold getNextState
  unfold eventTable at h
  cases hS : lookup s.Current s.States with
  | none => rfl
  | some state =>
    simp only [hS] at h ⊢
    cases hE : state.Events with
    | none => rfl
    | some events =>
      simp only [hE] at h ⊢
      simp only [h]

theorem getNextState_some {κ : Type} (s : StateMachine κ) (event : EventType) (T : StateType)
    (h : lookup event (eventTable s.States s.Current) = some T) :
    getNextState s event = (T, Error.nil) := by
  unfold getNextState
  unfold eventTable at h
  cases hS : lookup s.Current s.States with
  | none => simp [hS, lookup] at h
  | some state =>
    simp only [hS] at h ⊢
    cases hE : state.Events with
    | none => simp [hE, lookup] at h
    | some events =>
      simp only [hE] at h ⊢
      simp only [h]

theorem chain_nil_eq {κ : Type} (states : States κ) (S : StateType) (E : EventType) (ctx : κ)
    (r : Stop × κ) (h : chain states S E ctx [] = some r) :
    lookup E (eventTable states S) = none ∧ r = (Stop.rejected, ctx) := by
  simp only [chain] at h
  by_cases hl : lookup E (eventTable states S) = none
  · rw [if_pos hl] at h
    exact ⟨hl, (Option.some.inj h).symm⟩
  · rw [if_neg hl] at h
    cases h

theorem stop_last {κ : Type} {rest : List StateType} {a b : Stop × κ}
    (h : (if rest = [] then some a else none) = some b) : rest = [] ∧ a = b := by
  by_cases hr : rest = []
  · rw [if_pos hr] at h
    exact ⟨hr, Option.some.inj h⟩
  · rw [if_neg hr] at h
    cases h

theorem SendEvent_of_chain {κ : Type} (l : List StateType) :
    ∀ (s : StateMachine κ) (E : EventType) (ctx : κ) (stop : Stop) (ctx' : κ) (fuel : Nat),
      chain s.States s.Current E ctx l = some (stop, ctx') → l.length + stop.extra ≤ fuel →
      SendEvent fuel s E ctx = some { exit := stop.exit, machine := s.after l, ctx := ctx' } := by
  induction l with
  | nil =>
    intro s E ctx stop ctx' fuel h hf
    obtain ⟨hl, hr⟩ := chain_nil_eq _ _ _ _ _ h
    obtain ⟨rfl, rfl⟩ := Prod.mk.inj hr
    obtain ⟨f, rfl⟩ : ∃ f, fuel = f + 1 := ⟨fuel - 1, by simp [Stop.extra] at hf; omega⟩
    simp only [SendEvent, getNextState_none s E hl, Stop.exit, StateMachine.after]
  | cons T rest ih =>
    intro s E ctx stop ctx' fuel h hf
    simp only [chain] at h
    by_cases hl : lookup E (eventTable s.States s.Current) = some T
    · rw [if_pos hl] at h
      obtain ⟨f, rfl⟩ : ∃ f, fuel = f + 1 := ⟨fuel - 1, by simp at hf; omega⟩
      simp only [SendEvent, getNextState_some s E T hl, StateMachine.after]
      cases hA : (stateOf s.States T).Action with
      | none =>
        simp only [hA] at h ⊢
        obtain ⟨rfl, hr⟩ := stop_last h
        obtain ⟨rfl, rfl⟩ := Prod.mk.inj hr
        simp only [Stop.exit, StateMachine.after]
      | some action =>
        simp only [hA] at h ⊢
        cases hx : action ctx with
        | blocks => simp [hx] at h
        | panics ctx1 =>
          simp only [hx] at h ⊢
          obtain ⟨rfl, hr⟩ := stop_last h
          obtain ⟨rfl, rfl⟩ := Prod.mk.inj hr
          simp only [Stop.exit, StateMachine.after]
        | returns E2 ctx1 =>
          simp only [hx] at h ⊢
          by_cases hn : E2 = NoOp
          · rw [if_pos hn] at h
            obtain ⟨rfl, hr⟩ := stop_last h
            obtain ⟨rfl, rfl⟩ := Prod.mk.inj hr
            simp only [hn, if_true, Stop.exit, StateMachine.after]
          · rw [if_neg hn] at h
            simp only [hn, if_false]
            exact ih { s with Previous := s.Current, Current := T } E2 ctx1 stop ctx' f h
              (by simp at hf; omega)
    · rw [if_neg hl] at h
      cases h

theorem chain_of_SendEvent {κ : Type} (fuel : Nat) :
    ∀ (s : StateMachine κ) (E : EventType) (ctx : κ) (o : Outcome κ),
      SendEvent fuel s E ctx = some o →
      ∃ l stop, l.length + stop.extra ≤ fuel ∧
        chain s.States s.Current E ctx l = some (stop, o.ctx) ∧
        o.exit = stop.exit ∧ o.machine = s.after l := by
  induction fuel with
  | zero => intro s E ctx o h; simp [SendEvent] at h
  | succ f ih =>
    intro s E ctx o h
    cases hl : lookup E (eventTable s.States s.Current) with
    | none =>
      simp only [SendEvent, getNextState_none s E hl, Option.some.injEq] at h
      subst h
      exact ⟨[], Stop.rejected, by simp [Stop.extra], by simp [chain, hl], rfl, rfl⟩
    | some T =>
      simp only [SendEvent, getNextState_some s E T hl] at h
      cases hA : (stateOf s.States T).Action with
      | none =>
        simp only [hA, Option.some.injEq] at h
        subst h
        exact ⟨[T], Stop.nilAction, by simp [Stop.extra], by simp [chain, hl, hA], rfl, rfl⟩
      | some action =>
        simp only [hA] at h
        cases hx : action ctx with
        | blocks => simp [hx] at h
        | panics ctx1 =>
          simp only [hx, Option.some.injEq] at h
          subst h
          exact ⟨[T], Stop.actionPanic, by simp [Stop.extra], by simp [chain, hl, hA, hx], rfl, rfl⟩
        | returns E2 ctx1 =>
          simp only [hx] at h
          by_cases hn : E2 = NoOp
          · simp only [hn, if_true, Option.some.injEq] at h
            subst h
            exact ⟨[T], Stop.settled, by simp [Stop.extra], by simp [chain, hl, hA, hx, hn],
              rfl, rfl⟩
          · simp only [hn, if_false] at h
            obtain ⟨l, stop, hlen, hc, he, hm⟩ := ih _ E2 ctx1 o h
            refine ⟨T :: l, stop, by simp; omega, ?_, he, ?_⟩
            · simp only [chain, hl, if_true, hA, hx, hn, if_false]
              exact hc
            · simpa [StateMachine.after] using hm

theorem after_States {κ : Type} (l : List StateType) :
    ∀ s : StateMachine κ, (s.after l).States = s.States := by
  induction l with
  | nil => intro s; rfl
  | cons T rest ih => intro s; simp only [StateMachine.after]; rw [ih]

theorem after_Current {κ : Type} (l : List StateType) :
    ∀ s : StateMachine κ, (s.Current :: l).getLast? = some (s.after l).Current := by
  induction l with
  | nil => intro s; rfl
  | cons T rest ih =>
    intro s
    rw [List.getLast?_cons_cons]
    exact ih { s with Previous := s.Current, Current := T }

theorem after_Previous {κ : Type} (l : List StateType) :
    ∀ s : StateMachine κ, l ≠ [] →
      (s.Current :: l).dropLast.getLast? = some (s.after l).Previous := by
  induction l with
  | nil => intro s h; exact absurd rfl h
  | cons T rest ih =>
    intro s _
    cases rest with
    | nil => rfl
    | cons U rest2 =>
      have h := ih { s with Previous := s.Current, Current := T } (by simp)
      simp only [StateMachine.after] at h ⊢
      simpa [List.dropLast, List.getLast?_cons_cons] using h

/-- The result of a call does not depend on the fuel, once there is enough. -/
theorem SendEvent_mono {κ : Type} {n m : Nat} {s : StateMachine κ} {E : EventType} {ctx : κ}
    {o : Outcome κ} (h : SendEvent n s E ctx = some o) (hnm : n ≤ m) :
    SendEvent m s E ctx = some o := by
  obtain ⟨l, stop, hlen, hc, he, hm⟩ := chain_of_SendEvent n s E ctx o h
  rw [SendEvent_of_chain l s E ctx stop o.ctx m hc (by omega), ← he, ← hm]

theorem SendEvent_det {κ : Type} {n m : Nat} {s : StateMachine κ} {E : EventType} {ctx : κ}
    {o o2 : Outcome κ} (h : SendEvent n s E ctx = some o) (h2 : SendEvent m s E ctx = some o2) :
    o = o2 := by
  have a := SendEvent_mono h (Nat.le_max_left n m)
  have b := SendEvent_mono h2 (Nat.le_max_right n m)
  rw [a] at b
  exact Option.some.inj b

/-! ## The claims -/

theorem lookup_eventTable_of_missing {κ : Type} (states : States κ) (S : StateType)
    (E : EventType) (h : lookup S states = none) : lookup E (eventTable states S) = none := by
  simp [eventTable, h, lookup]

theorem SendEvent_rejected_of_none {κ : Type} (s : StateMachine κ) (event : EventType)
    (eventCtx : κ) (fuel : Nat) (hl : lookup event (eventTable s.States s.Current) = none) :
    SendEvent (fuel + 1) s event eventCtx =
      some { exit := Exit.returned Error.ErrEventRejected, machine := s, ctx := eventCtx } := by
  simp only [SendEvent, getNextState_none s event hl]

theorem chain_cons_head {κ : Type} {states : States κ} {S : StateType} {E : EventType} {ctx : κ}
    {T : StateType} {rest : List StateType} {r : Stop × κ}
    (h : chain states S E ctx (T :: rest) = some r) :
    lookup E (eventTable states S) = some T := by
  by_cases hl : lookup E (eventTable states S) = some T
  · exact hl
  · simp only [chain, if_neg hl] at h
    cases h

theorem Stop.exit_injective {a b : Stop} (h : a.exit = b.exit) : a = b := by
  cases a <;> cases b <;> first | rfl | cases h

/-- A call that took the transition into `T` first: the states it entered are
a chain `T, ...` of the table, `Current` is the last of them and `Previous` the
state before it. -/
theorem SendEvent_entered {κ : Type} (fuel : Nat) (s : StateMachine κ) (event : EventType)
    (eventCtx : κ) (o : Outcome κ) (T : StateType)
    (hret : SendEvent fuel s event eventCtx = some o)
    (hmap : lookup event (eventTable s.States s.Current) = some T) :
    ∃ (rest : List StateType) (stop : Stop),
      o.exit = stop.exit ∧ rest.length + 1 + stop.extra ≤ fuel ∧
      chain s.States s.Current event eventCtx (T :: rest) = some (stop, o.ctx) ∧
      (T :: rest).getLast? = some o.machine.Current ∧
      (s.Current :: T :: rest).dropLast.getLast? = some o.machine.Previous ∧
      o.machine.States = s.States := by
  obtain ⟨l, stop, hlen, hc, he, hm⟩ := chain_of_SendEvent fuel s event eventCtx o hret
  cases l with
  | nil =>
    obtain ⟨hl, _⟩ := chain_nil_eq _ _ _ _ _ hc
    rw [hl] at hmap
    cases hmap
  | cons T2 rest =>
    have hT : T2 = T := by
      have hl := chain_cons_head hc
      rw [hl] at hmap
      exact Option.some.inj hmap
    subst hT
    refine ⟨rest, stop, he, by simpa using hlen, hc, ?_, ?_, ?_⟩
    · have := after_Current (T2 :: rest) s
      rw [List.getLast?_cons_cons] at this
      rw [hm]
      exact this
    · rw [hm]
      exact after_Previous (T2 :: rest) s (by simp)
    · rw [hm]
      exact after_States _ s

/-- Claim C1. For every state table, current state `S` and event `E` such that
`S` is not a key of the table or the event table of `S` does not contain `E`,
`SendEvent(E, ctx)` with `Current = S` returns `ErrEventRejected` and leaves the
machine, `Current` and `Previous` included, and the context as they were. -/
theorem C1_unlisted_event_is_rejected {κ : Type} (s : StateMachine κ) (event : EventType)
    (eventCtx : κ) (fuel : Nat)
    (h : lookup s.Current s.States = none ∨
      lookup event (eventTable s.States s.Current) = none) :
    SendEvent (fuel + 1) s event eventCtx =
      some { exit := Exit.returned Error.ErrEventRejected, machine := s, ctx := eventCtx } := by
  have hl : lookup event (eventTable s.States s.Current) = none := by
    rcases h with h | h
    · exact lookup_eventTable_of_missing _ _ _ h
    · exact h
  exact SendEvent_rejected_of_none s event eventCtx fuel hl

/-- Witness of C1: the light switch in state `Off` rejects `SwitchOff`. -/
theorem C1_unlisted_event_is_rejected_witness :
    lookup SwitchOff (eventTable (newLightSwitchFSM (κ := Unit)).States Off) = none ∧
    SendEvent 1 { (newLightSwitchFSM (κ := Unit)) with Current := Off } SwitchOff () =
      some { exit := Exit.returned Error.ErrEventRejected,
             machine := { (newLightSwitchFSM (κ := Unit)) with Current := Off }, ctx := () } :=
  ⟨by decide,
   C1_unlisted_event_is_rejected { (newLightSwitchFSM (κ := Unit)) with Current := Off }
     SwitchOff () 0 (Or.inr (by decide))⟩

/-- Counterexample to C3 as stated: the call below returns `ErrEventRejected`,
the event `Finish` emitted by the action of `Busy` being the one rejected, and
`Current` has moved from `Default` to `Busy`. -/
theorem C3_counterexample :
    rejectingChainFSM.Current = Default ∧
    ∃ o, SendEvent 2 rejectingChainFSM "Start" () = some o ∧
      o.exit = Exit.returned Error.ErrEventRejected ∧ o.machine.Current = "Busy" ∧
      o.machine.Current ≠ rejectingChainFSM.Current :=
  ⟨rfl, _, rfl, rfl, rfl, by decide⟩

/-- Claim C3, amended. Let a call of `SendEvent` return `ErrEventRejected`.
When the event sent by the caller is the one rejected (the current state does
not list it), the machine and the context are as before the call.  When the
current state maps the event to `T`, so that an event emitted by an action is
the one rejected, the transitions taken before are kept: the states entered are
a chain `T, ...` of the table that ends in a rejection, `Current` is its last
state and `Previous` the state before it in `S, T, ...`. -/
theorem C3_rejection_outcome {κ : Type} (fuel : Nat) (s : StateMachine κ) (event : EventType)
    (eventCtx : κ) (o : Outcome κ) (hret : SendEvent fuel s event eventCtx = some o)
    (hrej : o.exit = Exit.returned Error.ErrEventRejected) :
    (lookup event (eventTable s.States s.Current) = none →
        o.machine = s ∧ o.ctx = eventCtx) ∧
    (∀ T : StateType, lookup event (eventTable s.States s.Current) = some T →
        ∃ rest : List StateType,
          chain s.States s.Current event eventCtx (T :: rest) = some (Stop.rejected, o.ctx) ∧
          (T :: rest).getLast? = some o.machine.Current ∧
          (s.Current :: T :: rest).dropLast.getLast? = some o.machine.Previous ∧
          o.machine.States = s.States) := by
  constructor
  · intro hl
    obtain ⟨f, rfl⟩ : ∃ f, fuel = f + 1 := by
      cases fuel with
      | zero => simp [SendEvent] at hret
      | succ f => exact ⟨f, rfl⟩
    rw [SendEvent_rejected_of_none s event eventCtx f hl] at hret
    cases hret
    exact ⟨rfl, rfl⟩
  · intro T hmap
    obtain ⟨rest, stop, he, _, hc, h1, h2, h3⟩ :=
      SendEvent_entered fuel s event eventCtx o T hret hmap
    have hstop : stop = Stop.rejected := Stop.exit_injective (by rw [← he, hrej]; rfl)
    subst hstop
    exact ⟨rest, hc, h1, h2, h3⟩

/-- Witness of C3: the table whose action of `Busy` emits the unlisted event
`Finish`; the rejected call leaves `Previous = Default` and `Current = Busy`. -/
theorem C3_rejection_outcome_witness :
    lookup "Start" (eventTable rejectingChainFSM.States rejectingChainFSM.Current) = some "Busy" ∧
    ∃ rest : List StateType,
      chain rejectingChainFSM.States rejectingChainFSM.Current "Start" () ("Busy" :: rest) =
        some (Stop.rejected, ()) ∧
      ("Busy" :: rest).getLast? = some "Busy" ∧
      (Default :: "Busy" :: rest).dropLast.getLast? = some Default :=
  ⟨by decide,
    by
      obtain ⟨rest, h1, h2, h3, _⟩ :=
        (C3_rejection_outcome 2 rejectingChainFSM "Start" ()
          { exit := Exit.returned Error.ErrEventRejected,
            machine := { rejectingChainFSM with Previous := Default, Current := "Busy" },
            ctx := () } rfl rfl).2 "Busy" (by decide)
      exact ⟨rest, h1, h2, h3⟩⟩

/-- Claim C4 (chaining law). (a) If `S` maps `E` to `T`, the action of `T`
returns an event `E2` other than `NoOp`, `T` maps `E2` to `U` and the action of
`U` returns `NoOp`, then one `SendEvent(E, ctx)` from `Current = S` returns nil
with `Current = U` (and `Previous = T`).  (b) For every chain of `n ≥ 1`
accepted transitions whose last action is the first to return `NoOp`, the call
returns nil, within `n` iterations, with `Current` the `n`-th state of the
chain and `Previous` the state before it. -/
theorem C4_chaining_law {κ : Type} (s : StateMachine κ) (event : EventType) (eventCtx : κ) :
    (∀ (T U : StateType) (E2 : EventType) (actionT actionU : Action κ) (ctx1 ctx2 : κ)
        (fuel : Nat),
        lookup event (eventTable s.States s.Current) = some T →
        (stateOf s.States T).Action = some actionT →
        actionT eventCtx = Executed.returns E2 ctx1 → E2 ≠ NoOp →
        lookup E2 (eventTable s.States T) = some U →
        (stateOf s.States U).Action = some actionU →
        actionU ctx1 = Executed.returns NoOp ctx2 →
        SendEvent (fuel + 2) s event eventCtx =
          some { exit := Exit.returned Error.nil,
                 machine := { s with Previous := T, Current := U }, ctx := ctx2 }) ∧
    (∀ (states : List StateType) (ctx1 : κ) (fuel : Nat),
        chain s.States s.Current event eventCtx states = some (Stop.settled, ctx1) →
        states.length ≤ fuel →
        1 ≤ states.length ∧
        ∃ o, SendEvent fuel s event eventCtx = some o ∧ o.exit = Exit.returned Error.nil ∧
          o.ctx = ctx1 ∧ o.machine.States = s.States ∧
          states.getLast? = some o.machine.Current ∧
          (s.Current :: states).dropLast.getLast? = some o.machine.Previous) := by
  constructor
  · intro T U E2 actionT actionU ctx1 ctx2 fuel hT hAT hxT hne hU hAU hxU
    have hc : chain s.States s.Current event eventCtx [T, U] = some (Stop.settled, ctx2) := by
      simp [chain, hT, hAT, hxT, hne, hU, hAU, hxU]
    exact SendEvent_of_chain [T, U] s event eventCtx Stop.settled ctx2 (fuel + 2) hc
      (by simp [Stop.extra])
  · intro states ctx1 fuel hc hf
    cases states with
    | nil =>
      obtain ⟨_, hr⟩ := chain_nil_eq _ _ _ _ _ hc
      cases hr
    | cons T rest =>
      refine ⟨by simp, _, SendEvent_of_chain (T :: rest) s event eventCtx Stop.settled ctx1 fuel
        hc (by simpa [Stop.extra] using hf), rfl, rfl, after_States _ s, ?_, ?_⟩
      · have := after_Current (T :: rest) s
        rw [List.getLast?_cons_cons] at this
        exact this
      · exact after_Previous (T :: rest) s (by simp)

/-- Witness of C4: the order machine with an empty order; the chain is
`CreatingOrder`, `OrderFailed`. -/
theorem C4_chaining_law_witness :
    SendEvent 2 newOrderFSM CreateOrder (EventContext.creation { items := [], err := none }) =
      some { exit := Exit.returned Error.nil,
             machine := { newOrderFSM with Previous := CreatingOrder, Current := OrderFailed },
             ctx := EventContext.creation
               { items := [], err := some "Insufficient number of items in order" } } :=
  (C4_chaining_law newOrderFSM CreateOrder (EventContext.creation { items := [], err := none })).1
    CreatingOrder OrderFailed FailOrder CreatingOrderAction OrderFailedAction
    (EventContext.creation { items := [], err := some "Insufficient number of items in order" })
    (EventContext.creation { items := [], err := some "Insufficient number of items in order" })
    0 (by decide) rfl rfl (by decide) (by decide) rfl rfl

/-- Claim C5, the code at the failing inputs. `Default` maps `Start` to
`Running`, an entry with a nil `Action`, and `Skip` to `Elsewhere`, which is
not a key of the table.  The guard of lines 94-96 sees both cases and does
nothing about them (its body is the comment `// config error`): the call
assigns `Previous` and `Current` and then panics on the nil `Action` at line
103, and no amount of iterations makes it return nil, where the claim has it
take the produced event for `NoOp` and return nil. -/
theorem C5_nil_action_failure :
    (lookup "Start" (eventTable noActionFSM.States noActionFSM.Current) = some "Running" ∧
      (SendEvent 1 noActionFSM "Start" ()).map Outcome.observe =
        some (Exit.panicked Panic.nilAction, Default, "Running") ∧
      ¬ ∃ fuel o, SendEvent fuel noActionFSM "Start" () = some o ∧
        o.exit = Exit.returned Error.nil) ∧
    (lookup "Skip" (eventTable noActionFSM.States noActionFSM.Current) = some "Elsewhere" ∧
      (SendEvent 1 noActionFSM "Skip" ()).map Outcome.observe =
        some (Exit.panicked Panic.nilAction, Default, "Elsewhere") ∧
      ¬ ∃ fuel o, SendEvent fuel noActionFSM "Skip" () = some o ∧
        o.exit = Exit.returned Error.nil) := by
  refine ⟨⟨by decide, by decide, ?_⟩, ⟨by decide, by decide, ?_⟩⟩
  · rintro ⟨fuel, o, h, hnil⟩
    have h2 : SendEvent 1 noActionFSM "Start" () =
        some { exit := Exit.panicked Panic.nilAction,
               machine := { noActionFSM with Previous := Default, Current := "Running" },
               ctx := () } := rfl
    have := SendEvent_det h h2
    subst this
    cases hnil
  · rintro ⟨fuel, o, h, hnil⟩
    have h2 : SendEvent 1 noActionFSM "Skip" () =
        some { exit := Exit.panicked Panic.nilAction,
               machine := { noActionFSM with Previous := Default, Current := "Elsewhere" },
               ctx := () } := rfl
    have := SendEvent_det h h2
    subst this
    cases hnil

/-- What the code does when `S` maps `E` to a destination `T` that has no
`Action` (the entry of `T` has a nil `Action`, or `T` is not a key of the
table): the guard of lines 94-96 lets the call go on, so `SendEvent(E, ctx)`
from `Current = S` assigns `Previous = S` and `Current = T` and then panics in
the call of `Execute` on the nil `Action`, the context untouched. -/
theorem SendEvent_on_nil_action {κ : Type} (s : StateMachine κ) (event : EventType)
    (eventCtx : κ) (T : StateType) (fuel : Nat)
    (hmap : lookup event (eventTable s.States s.Current) = some T)
    (hnil : lookup T s.States = none ∨
      ∃ state, lookup T s.States = some state ∧ state.Action = none) :
    SendEvent (fuel + 1) s event eventCtx =
      some { exit := Exit.panicked Panic.nilAction,
             machine := { s with Previous := s.Current, Current := T }, ctx := eventCtx } := by
  have hA : (stateOf s.States T).Action = none := by
    rcases hnil with h | ⟨state, h, hA⟩
    · simp [stateOf, h]
    · simp [stateOf, h, hA]
  simp only [SendEvent, getNextState_some s event T hmap, hA]

theorem SendEvents_mono {κ : Type} {n m : Nat} (hnm : n ≤ m) (calls : List (EventType × κ)) :
    ∀ (s : StateMachine κ) (os : List (Outcome κ)),
      SendEvents n s calls = some os → SendEvents m s calls = some os := by
  induction calls with
  | nil => intro s os h; simpa [SendEvents] using h
  | cons c rest ih =>
    intro s os h
    obtain ⟨event, eventCtx⟩ := c
    simp only [SendEvents] at h ⊢
    cases h1 : SendEvent n s event eventCtx with
    | none => simp [h1] at h
    | some o =>
      simp only [h1] at h
      rw [SendEvent_mono h1 hnm]
      cases h2 : SendEvents n o.machine rest with
      | none => simp [h2] at h
      | some os2 =>
        simp only [h2] at h
        simp only [ih o.machine os2 h2]
        exact h

/-- Claim C6 (light-switch scenario). On a freshly constructed light-switch
machine, whose `Current` is `Default`, the calls `SendEvent(SwitchOff)`,
`SendEvent(SwitchOff)`, `SendEvent(SwitchOn)`, `SendEvent(SwitchOn)`,
`SendEvent(SwitchOff)` with a nil context return nil, `ErrEventRejected`, nil,
`ErrEventRejected`, nil, and `Current` after each call is `Off`, `Off`, `On`,
`On`, `Off` (with `Previous` being `Default`, `Default`, `Off`, `Off`, `On`). -/
theorem C6_light_switch_scenario (fuel : Nat) :
    (newLightSwitchFSM (κ := EventContext)).Current = Default ∧
    (SendEvents (fuel + 1) newLightSwitchFSM
        [(SwitchOff, EventContext.nil), (SwitchOff, EventContext.nil),
         (SwitchOn, EventContext.nil), (SwitchOn, EventContext.nil),
         (SwitchOff, EventContext.nil)]).map (List.map Outcome.observe) =
      some [(Exit.returned Error.nil, Default, Off),
            (Exit.returned Error.ErrEventRejected, Default, Off),
            (Exit.returned Error.nil, Off, On),
            (Exit.returned Error.ErrEventRejected, Off, On),
            (Exit.returned Error.nil, On, Off)] := by
  refine ⟨rfl, ?_⟩
  have h1 : (SendEvents 1 newLightSwitchFSM
        [(SwitchOff, EventContext.nil), (SwitchOff, EventContext.nil),
         (SwitchOn, EventContext.nil), (SwitchOn, EventContext.nil),
         (SwitchOff, EventContext.nil)]).map (List.map Outcome.observe) =
      some [(Exit.returned Error.nil, Default, Off),
            (Exit.returned Error.ErrEventRejected, Default, Off),
            (Exit.returned Error.nil, Off, On),
            (Exit.returned Error.ErrEventRejected, Off, On),
            (Exit.returned Error.nil, On, Off)] := by decide
  cases h : SendEvents 1 (newLightSwitchFSM (κ := EventContext))
        [(SwitchOff, EventContext.nil), (SwitchOff, EventContext.nil),
         (SwitchOn, EventContext.nil), (SwitchOn, EventContext.nil),
         (SwitchOff, EventContext.nil)] with
  | none => rw [h] at h1; cases h1
  | some os =>
    rw [h] at h1
    rw [SendEvents_mono (Nat.succ_le_succ (Nat.zero_le fuel)) _ _ _ h]
    exact h1

theorem lookup_single {α β : Type} [DecidableEq α] {e k : α} {v T : β}
    (h : lookup e [(k, v)] = some T) : e = k ∧ T = v := by
  simp only [lookup] at h
  by_cases he : e = k
  · rw [if_pos he] at h
    exact ⟨he, (Option.some.inj h).symm⟩
  · rw [if_neg he] at h
    cases h

theorem lightSwitch_accepts {κ : Type} (S T : StateType) (e : EventType)
    (h : lookup e (eventTable (newLightSwitchFSM (κ := κ)).States S) = some T) :
    (e = SwitchOff ∧ T = Off) ∨ (e = SwitchOn ∧ T = On) := by
  simp only [eventTable, newLightSwitchFSM, lookup] at h
  by_cases h0 : S = Default
  · simp only [h0, if_true] at h
    exact Or.inl (lookup_single h)
  · simp only [h0, if_false] at h
    by_cases h1 : S = Off
    · simp only [h1, if_true] at h
      exact Or.inr (lookup_single h)
    · simp only [h1, if_false] at h
      by_cases h2 : S = On
      · simp only [h2, if_true] at h
        exact Or.inl (lookup_single h)
      · simp only [h2, if_false] at h
        cases h

/-- One call on the light switch, from any state: it is over within one
iteration, the table is kept, and when it returns nil the state entered does
not list the event just sent. -/
theorem lightSwitch_step {κ : Type} (s : StateMachine κ)
    (hs : s.States = (newLightSwitchFSM (κ := κ)).States) (e : EventType) (c : κ) (fuel : Nat) :
    ∃ o, SendEvent (fuel + 1) s e c = some o ∧
      o.machine.States = (newLightSwitchFSM (κ := κ)).States ∧
      (o.exit = Exit.returned Error.nil →
        lookup e (eventTable o.machine.States o.machine.Current) = none) := by
  cases hl : lookup e (eventTable s.States s.Current) with
  | none =>
    exact ⟨_, SendEvent_rejected_of_none s e c fuel hl, hs, fun h => by cases h⟩
  | some T =>
    have hl2 := hl
    rw [hs] at hl2
    rcases lightSwitch_accepts _ _ _ hl2 with ⟨rfl, rfl⟩ | ⟨rfl, rfl⟩
    · have hc : chain s.States s.Current SwitchOff c [Off] = some (Stop.settled, c) := by
        simp only [chain, hs, hl2, if_true]
        rfl
      refine ⟨_, SendEvent_of_chain [Off] s SwitchOff c Stop.settled c (fuel + 1) hc
        (by simp [Stop.extra]), hs, fun _ => ?_⟩
      simp only [StateMachine.after, hs]
      rfl
    · have hc : chain s.States s.Current SwitchOn c [On] = some (Stop.settled, c) := by
        simp only [chain, hs, hl2, if_true]
        rfl
      refine ⟨_, SendEvent_of_chain [On] s SwitchOn c Stop.settled c (fuel + 1) hc
        (by simp [Stop.extra]), hs, fun _ => ?_⟩
      simp only [StateMachine.after, hs]
      rfl

theorem lightSwitch_twice {κ : Type} (pre : List (EventType × κ)) (e : EventType) (c1 c2 : κ)
    (fuel : Nat) :
    ∀ s : StateMachine κ, s.States = (newLightSwitchFSM (κ := κ)).States →
      ∃ (os : List (Outcome κ)) (o1 o2 : Outcome κ),
        SendEvents (fuel + 1) s (pre ++ [(e, c1), (e, c2)]) = some (os ++ [o1, o2]) ∧
        os.length = pre.length ∧
        (o1.exit = Exit.returned Error.nil →
          o2.exit = Exit.returned Error.ErrEventRejected ∧
          o2.machine.Current = o1.machine.Current ∧
          o2.machine.Previous = o1.machine.Previous) := by
  induction pre with
  | nil =>
    intro s hs
    obtain ⟨o1, h1, hs1, hrej⟩ := lightSwitch_step s hs e c1 fuel
    by_cases hnil : o1.exit = Exit.returned Error.nil
    · have h2 := SendEvent_rejected_of_none o1.machine e c2 fuel (hrej hnil)
      refine ⟨[], o1, Outcome.mk (Exit.returned Error.ErrEventRejected) o1.machine c2, ?_, rfl,
        fun _ => ⟨rfl, rfl, rfl⟩⟩
      simp only [List.nil_append, SendEvents, h1, h2]
    · obtain ⟨o2, h2, _, _⟩ := lightSwitch_step o1.machine hs1 e c2 fuel
      refine ⟨[], o1, o2, ?_, rfl, fun h => absurd h hnil⟩
      simp only [List.nil_append, SendEvents, h1, h2]
  | cons c rest ih =>
    intro s hs
    obtain ⟨event, eventCtx⟩ := c
    obtain ⟨o, h, hso, _⟩ := lightSwitch_step s hs event eventCtx fuel
    obtain ⟨os, o1, o2, hrest, hlen, hprop⟩ := ih o.machine hso
    refine ⟨o :: os, o1, o2, ?_, by simp [hlen], hprop⟩
    simp only [List.cons_append, SendEvents, h, List.append_eq, hrest]

/-- Claim C7. On a freshly constructed light-switch machine, after every finite
sequence of calls (any events, any contexts), no event is accepted twice in a
row: when `SendEvent(e)` returns nil, the `SendEvent(e)` that follows it at once
returns `ErrEventRejected` and leaves `Current` and `Previous` as they were.
Every call of the sequence is over within one iteration of the loop. -/
theorem C7_no_event_accepted_twice_in_a_row {κ : Type} (pre : List (EventType × κ))
    (e : EventType) (c1 c2 : κ) (fuel : Nat) :
    ∃ (os : List (Outcome κ)) (o1 o2 : Outcome κ),
      SendEvents (fuel + 1) newLightSwitchFSM (pre ++ [(e, c1), (e, c2)]) =
        some (os ++ [o1, o2]) ∧
      os.length = pre.length ∧
      (o1.exit = Exit.returned Error.nil →
        o2.exit = Exit.returned Error.ErrEventRejected ∧
        o2.machine.Current = o1.machine.Current ∧
        o2.machine.Previous = o1.machine.Previous) :=
  lightSwitch_twice pre e c1 c2 fuel newLightSwitchFSM rfl

/-- Claim C8 (order-pipeline scenario). For every items list (and every value
of the `err` field beforehand), on a freshly constructed order machine one call
`SendEvent(CreateOrder, ctx)` with `ctx` an `OrderCreationContext` holding those
items returns nil, within two iterations.  When the list is empty, the action of
`CreatingOrder` returns `FailOrder` with `ctx.err` set, and the machine settles
in `Current = OrderFailed` with `Previous = CreatingOrder`; when it is not
empty, the action returns `PlaceOrder`, the context is left as it was, and the
machine settles in `Current = OrderPlaced` (again `Previous = CreatingOrder`). -/
theorem C8_order_pipeline_scenario (items : List String) (err : Option String) (fuel : Nat) :
    newOrderFSM.Current = Default ∧
    CreatingOrderAction (EventContext.creation { items := items, err := err }) =
      (if items = [] then
        Executed.returns FailOrder (EventContext.creation
          { items := [], err := some "Insufficient number of items in order" })
      else
        Executed.returns PlaceOrder (EventContext.creation { items := items, err := err })) ∧
    SendEvent (fuel + 2) newOrderFSM CreateOrder
        (EventContext.creation { items := items, err := err }) =
      some
        { exit := Exit.returned Error.nil
          machine :=
            { newOrderFSM with
              Previous := CreatingOrder
              Current := if items = [] then OrderFailed else OrderPlaced }
          ctx :=
            if items = [] then
              EventContext.creation
                { items := [], err := some "Insufficient number of items in order" }
            else EventContext.creation { items := items, err := err } } := by
  refine ⟨rfl, ?_, ?_⟩
  · cases items with
    | nil => rfl
    | cons x xs => simp [CreatingOrderAction]
  · apply SendEvent_mono _ (Nat.le_add_left 2 fuel)
    cases items with
    | nil => rfl
    | cons x xs => rfl

theorem loopFSM_runs (fuel : Nat) :
    ∀ P C : StateType, C = Default ∨ C = "Spin" →
      SendEvent fuel { Previous := P, Current := C, States := loopFSM.States } "Ping" () = none := by
  induction fuel with
  | zero => intro P C _; rfl
  | succ f ih =>
    intro P C hC
    have step : SendEvent (f + 1) { Previous := P, Current := C, States := loopFSM.States }
        "Ping" () =
        SendEvent f { Previous := C, Current := "Spin", States := loopFSM.States } "Ping" () := by
      rcases hC with rfl | rfl <;> rfl
    rw [step]
    exact ih C "Spin" (Or.inr rfl)

/-- Counterexample to C9 as stated: `Default` maps `Ping` to `Spin`, whose
action returns `Ping`, which `Spin` maps to `Spin`; the loop of
`SendEvent(Ping)` from `Default` reaches neither a `NoOp` nor a rejected event,
whatever the number of iterations.  (A second way not to settle: in
`blockingFSM` the action of `Waiting` never returns, and neither does
`SendEvent(Wait)`.) -/
theorem C9_counterexample :
    (¬ ∃ fuel o, SendEvent fuel loopFSM "Ping" () = some o) ∧
    (¬ ∃ fuel o, SendEvent fuel blockingFSM "Wait" () = some o) := by
  constructor
  · rintro ⟨fuel, o, h⟩
    have := loopFSM_runs fuel Default Default (Or.inl rfl)
    have h2 : SendEvent fuel loopFSM "Ping" () = none := this
    rw [h2] at h
    cases h
  · rintro ⟨fuel, o, h⟩
    cases fuel with
    | zero => cases h
    | succ f => cases h

/-- The first iteration of a call whose event is accepted into `T`: either the
call is over in it, or the action of `T` emitted an event other than `NoOp` and
the call goes on with that event from `T`, or the action of `T` never returns
and neither does the call. -/
theorem SendEvent_first_iteration {κ : Type} (s : StateMachine κ) (event : EventType)
    (eventCtx : κ) (T : StateType)
    (hmap : lookup event (eventTable s.States s.Current) = some T) :
    (∃ o, ∀ fuel, SendEvent (fuel + 1) s event eventCtx = some o) ∨
    (∃ (action : Action κ) (E2 : EventType) (ctx1 : κ),
      (stateOf s.States T).Action = some action ∧
      action eventCtx = Executed.returns E2 ctx1 ∧ E2 ≠ NoOp ∧
      ∀ fuel, SendEvent (fuel + 1) s event eventCtx =
        SendEvent fuel { s with Previous := s.Current, Current := T } E2 ctx1) ∨
    (∃ action : Action κ,
      (stateOf s.States T).Action = some action ∧ action eventCtx = Executed.blocks ∧
      ∀ fuel, SendEvent fuel s event eventCtx = none) := by
  cases hA : (stateOf s.States T).Action with
  | none =>
    exact Or.inl ⟨Outcome.mk (Exit.panicked Panic.nilAction)
      { s with Previous := s.Current, Current := T } eventCtx, fun fuel => by
      simp only [SendEvent, getNextState_some s event T hmap, hA]⟩
  | some action =>
    cases hx : action eventCtx with
    | blocks =>
      refine Or.inr (Or.inr ⟨action, rfl, hx, fun fuel => ?_⟩)
      cases fuel with
      | zero => rfl
      | succ f => simp only [SendEvent, getNextState_some s event T hmap, hA, hx]
    | panics ctx1 =>
      exact Or.inl ⟨Outcome.mk (Exit.panicked Panic.inAction)
        { s with Previous := s.Current, Current := T } ctx1, fun fuel => by
        simp only [SendEvent, getNextState_some s event T hmap, hA, hx]⟩
    | returns E2 ctx1 =>
      by_cases hn : E2 = NoOp
      · exact Or.inl ⟨Outcome.mk (Exit.returned Error.nil)
          { s with Previous := s.Current, Current := T } ctx1, fun fuel => by
          simp only [SendEvent, getNextState_some s event T hmap, hA, hx, hn, if_true]⟩
      · exact Or.inr (Or.inl ⟨action, E2, ctx1, rfl, hx, hn, fun fuel => by
          simp only [SendEvent, getNextState_some s event T hmap, hA, hx, hn, if_false]⟩)

/-- After the transition into `T`, the loop is over within `n + 2` iterations
when every call of `Execute` returns or panics, every event that an action emits
leads to a state of smaller rank and the rank of `T` is at most `n`. -/
theorem SendEvent_settles_ranked {κ : Type} (states : States κ) (rank : StateType → Nat)
    (hreturns : ∀ (T : StateType) (action : Action κ) (ctx : κ),
      (stateOf states T).Action = some action → action ctx ≠ Executed.blocks)
    (hrank : ∀ (T U : StateType) (action : Action κ) (ctx ctx1 : κ) (E2 : EventType),
      (stateOf states T).Action = some action → action ctx = Executed.returns E2 ctx1 →
      E2 ≠ NoOp → lookup E2 (eventTable states T) = some U → rank U < rank T)
    (n : Nat) :
    ∀ (s : StateMachine κ) (event : EventType) (eventCtx : κ) (T : StateType),
      s.States = states → lookup event (eventTable s.States s.Current) = some T →
      rank T ≤ n → ∃ o, SendEvent (n + 2) s event eventCtx = some o := by
  induction n with
  | zero =>
    intro s event eventCtx T hs hmap hr
    rcases SendEvent_first_iteration s event eventCtx T hmap with
      ⟨o, ho⟩ | ⟨action, E2, ctx1, hA, hx, hn, hgo⟩ | ⟨action, hA, hx, _⟩
    · exact ⟨o, ho 1⟩
    · rw [hgo 1]
      cases hl : lookup E2 (eventTable s.States T) with
      | none =>
        exact ⟨_, SendEvent_rejected_of_none { s with Previous := s.Current, Current := T }
          E2 ctx1 0 hl⟩
      | some U =>
        rw [hs] at hA hl
        have := hrank T U action eventCtx ctx1 E2 hA hx hn hl
        omega
    · rw [hs] at hA
      exact absurd hx (hreturns T action eventCtx hA)
  | succ n ih =>
    intro s event eventCtx T hs hmap hr
    rcases SendEvent_first_iteration s event eventCtx T hmap with
      ⟨o, ho⟩ | ⟨action, E2, ctx1, hA, hx, hn, hgo⟩ | ⟨action, hA, hx, _⟩
    · exact ⟨o, ho (n + 2)⟩
    · rw [hgo (n + 2)]
      cases hl : lookup E2 (eventTable s.States T) with
      | none =>
        exact ⟨_, SendEvent_rejected_of_none { s with Previous := s.Current, Current := T }
          E2 ctx1 (n + 1) hl⟩
      | some U =>
        have hlt : rank U < rank T := by
          rw [hs] at hA hl
          exact hrank T U action eventCtx ctx1 E2 hA hx hn hl
        exact ih { s with Previous := s.Current, Current := T } E2 ctx1 U hs hl (by omega)
    · rw [hs] at hA
      exact absurd hx (hreturns T action eventCtx hA)

/-- Claim C9, amended. `SendEvent` settles on every table whose actions always
come back and whose chained transitions cannot cycle: when every call of
`Execute` of the table returns or panics (none blocks or loops for ever), and a
rank on states decreases along every transition taken for an event that an
action emitted (the event is not `NoOp` and the state of the action maps it to
the next state), then for every start state, event and context the call is
over, with the same outcome for every number of iterations from `rank T + 2`
on, `T` being the state that the first event leads to: the loop has reached an
action returning `NoOp`, a rejected event, a nil `Action` or a panicking action.
(Without such a rank the loop need not end, and a call of `Execute` that never
returns keeps `SendEvent` from returning.) -/
theorem C9_settles_when_ranked {κ : Type} (s : StateMachine κ) (rank : StateType → Nat)
    (hreturns : ∀ (T : StateType) (action : Action κ) (ctx : κ),
      (stateOf s.States T).Action = some action → action ctx ≠ Executed.blocks)
    (hrank : ∀ (T U : StateType) (action : Action κ) (ctx ctx1 : κ) (E2 : EventType),
      (stateOf s.States T).Action = some action → action ctx = Executed.returns E2 ctx1 →
      E2 ≠ NoOp → lookup E2 (eventTable s.States T) = some U → rank U < rank T)
    (event : EventType) (eventCtx : κ) :
    ∃ (n : Nat) (o : Outcome κ),
      n ≤ (match getNextState s event with
        | (T, Error.nil) => rank T + 2
        | (_, Error.ErrEventRejected) => 1) ∧
      ∀ fuel, n ≤ fuel → SendEvent fuel s event eventCtx = some o := by
  cases hl : lookup event (eventTable s.States s.Current) with
  | none =>
    refine ⟨1, Outcome.mk (Exit.returned Error.ErrEventRejected) s eventCtx,
      by simp [getNextState_none s event hl], fun fuel hf => ?_⟩
    exact SendEvent_mono (SendEvent_rejected_of_none s event eventCtx 0 hl) hf
  | some T =>
    obtain ⟨o, ho⟩ :=
      SendEvent_settles_ranked s.States rank hreturns hrank (rank T) s event eventCtx T rfl hl
        le_rfl
    refine ⟨rank T + 2, o, by simp [getNextState_some s event T hl], fun fuel hf => ?_⟩
    exact SendEvent_mono ho hf

theorem lookup_eq_of_eq {α β : Type} [DecidableEq α] {e : α} {l : List (α × β)} {U V : β}
    (hU : lookup e l = some U) (hV : lookup e l = some V) : U = V := by
  rw [hU] at hV
  exact Option.some.inj hV

theorem orderRank_decreases (T U : StateType) (action : Action EventContext)
    (ctx ctx1 : EventContext) (E2 : EventType)
    (hA : (stateOf newOrderFSM.States T).Action = some action)
    (hx : action ctx = Executed.returns E2 ctx1) (hn : E2 ≠ NoOp)
    (hU : lookup E2 (eventTable newOrderFSM.States T) = some U) :
    orderRank U < orderRank T := by
  by_cases h0 : T = Default
  · subst h0
    cases hA
  by_cases h1 : T = CreatingOrder
  · subst h1
    obtain rfl : CreatingOrderAction = action := Option.some.inj hA
    cases ctx with
    | nil => cases hx
    | shipment c => cases hx
    | creation order =>
      simp only [CreatingOrderAction] at hx
      by_cases hi : order.items.length = 0
      · rw [if_pos hi] at hx
        obtain ⟨rfl, _⟩ := Executed.returns.inj hx
        obtain rfl := lookup_eq_of_eq hU (by decide : _ = some OrderFailed)
        decide
      · rw [if_neg hi] at hx
        obtain ⟨rfl, _⟩ := Executed.returns.inj hx
        obtain rfl := lookup_eq_of_eq hU (by decide : _ = some OrderPlaced)
        decide
  by_cases h2 : T = OrderFailed
  · subst h2
    obtain rfl : OrderFailedAction = action := Option.some.inj hA
    cases ctx with
    | nil => cases hx
    | shipment c => cases hx
    | creation order => exact absurd (Executed.returns.inj hx).1.symm hn
  by_cases h3 : T = OrderPlaced
  · subst h3
    obtain rfl : OrderPlacedAction = action := Option.some.inj hA
    cases ctx with
    | nil => cases hx
    | shipment c => cases hx
    | creation order => exact absurd (Executed.returns.inj hx).1.symm hn
  by_cases h4 : T = ChargingCard
  · subst h4
    obtain rfl : ChargingCardAction = action := Option.some.inj hA
    cases ctx with
    | nil => cases hx
    | creation c => cases hx
    | shipment shipment =>
      simp only [ChargingCardAction] at hx
      by_cases hi : shipment.cardNumber = ""
      · rw [if_pos hi] at hx
        obtain ⟨rfl, _⟩ := Executed.returns.inj hx
        obtain rfl := lookup_eq_of_eq hU (by decide : _ = some TransactionFailed)
        decide
      · rw [if_neg hi] at hx
        obtain ⟨rfl, _⟩ := Executed.returns.inj hx
        obtain rfl := lookup_eq_of_eq hU (by decide : _ = some OrderShipped)
        decide
  by_cases h5 : T = TransactionFailed
  · subst h5
    obtain rfl : TransactionFailedAction = action := Option.some.inj hA
    cases ctx with
    | nil => cases hx
    | creation c => cases hx
    | shipment shipment => exact absurd (Executed.returns.inj hx).1.symm hn
  by_cases h6 : T = OrderShipped
  · subst h6
    obtain rfl : OrderShippedAction = action := Option.some.inj hA
    cases ctx with
    | nil => cases hx
    | creation c => cases hx
    | shipment shipment => exact absurd (Executed.returns.inj hx).1.symm hn
  simp [stateOf, newOrderFSM, lookup, h0, h1, h2, h3, h4, h5, h6] at hA

/-- The actions of the order machine always come back: each returns an event
or panics on its type assertion. -/
theorem order_actions_return (T : StateType) (action : Action EventContext)
    (ctx : EventContext) (hA : (stateOf newOrderFSM.States T).Action = some action) :
    action ctx ≠ Executed.blocks := by
  have hcases : action = CreatingOrderAction ∨ action = OrderFailedAction ∨
      action = OrderPlacedAction ∨ action = ChargingCardAction ∨
      action = TransactionFailedAction ∨ action = OrderShippedAction := by
    by_cases h0 : T = Default
    · subst h0
      cases hA
    by_cases h1 : T = CreatingOrder
    · subst h1
      exact Or.inl (Option.some.inj hA).symm
    by_cases h2 : T = OrderFailed
    · subst h2
      exact Or.inr (Or.inl (Option.some.inj hA).symm)
    by_cases h3 : T = OrderPlaced
    · subst h3
      exact Or.inr (Or.inr (Or.inl (Option.some.inj hA).symm))
    by_cases h4 : T = ChargingCard
    · subst h4
      exact Or.inr (Or.inr (Or.inr (Or.inl (Option.some.inj hA).symm)))
    by_cases h5 : T = TransactionFailed
    · subst h5
      exact Or.inr (Or.inr (Or.inr (Or.inr (Or.inl (Option.some.inj hA).symm))))
    by_cases h6 : T = OrderShipped
    · subst h6
      exact Or.inr (Or.inr (Or.inr (Or.inr (Or.inr (Option.some.inj hA).symm))))
    simp [stateOf, newOrderFSM, lookup, h0, h1, h2, h3, h4, h5, h6] at hA
  intro hb
  rcases hcases with rfl | rfl | rfl | rfl | rfl | rfl
  · cases ctx with
    | nil => cases hb
    | shipment c => cases hb
    | creation order =>
      simp only [CreatingOrderAction] at hb
      by_cases hi : order.items.length = 0
      · rw [if_pos hi] at hb
        cases hb
      · rw [if_neg hi] at hb
        cases hb
  · cases ctx <;> cases hb
  · cases ctx <;> cases hb
  · cases ctx with
    | nil => cases hb
    | creation c => cases hb
    | shipment shipment =>
      simp only [ChargingCardAction] at hb
      by_cases hi : shipment.cardNumber = ""
      · rw [if_pos hi] at hb
        cases hb
      · rw [if_neg hi] at hb
        cases hb
  · cases ctx <;> cases hb
  · cases ctx <;> cases hb

/-- Witness of C9: the order machine, whose actions always come back, with the
rank `orderRank`; `CreateOrder` sent from `Default` with an empty order is over
within three iterations. -/
theorem C9_settles_when_ranked_witness :
    ∃ (n : Nat) (o : Outcome EventContext), n ≤ 3 ∧
      ∀ fuel, n ≤ fuel →
        SendEvent fuel newOrderFSM CreateOrder
          (EventContext.creation { items := [], err := none }) = some o :=
  C9_settles_when_ranked newOrderFSM orderRank order_actions_return orderRank_decreases
    CreateOrder (EventContext.creation { items := [], err := none })

/-- Claim C10. A state with no outgoing events is terminal: when the entry of
`S` in the table has a nil or an empty event table and `Current = S`, every call
of every subsequent sequence of `SendEvent` calls returns `ErrEventRejected`,
within one iteration, and the machine (`Current` and `Previous` included) and
the contexts never change. -/
theorem C10_state_without_events_is_terminal {κ : Type} (s : StateMachine κ) (state : State κ)
    (hS : lookup s.Current s.States = some state)
    (hE : state.Events = none ∨ state.Events = some [])
    (calls : List (EventType × κ)) (fuel : Nat) :
    SendEvents (fuel + 1) s calls =
      some (calls.map fun call =>
        { exit := Exit.returned Error.ErrEventRejected, machine := s, ctx := call.2 }) := by
  have hnone : ∀ event, lookup event (eventTable s.States s.Current) = none := by
    intro event
    rcases hE with h | h <;> simp [eventTable, hS, h, lookup]
  induction calls with
  | nil => rfl
  | cons call rest ih =>
    obtain ⟨event, eventCtx⟩ := call
    simp only [SendEvents, SendEvent_rejected_of_none s event eventCtx fuel (hnone event), ih,
      List.map_cons]

/-- Witness of C10: `OrderShipped` in the order machine, whose entry has no
`Events`. -/
theorem C10_state_without_events_is_terminal_witness :
    lookup OrderShipped newOrderFSM.States =
      some { Action := some OrderShippedAction, Events := none } ∧
    SendEvents 1 { newOrderFSM with Previous := ChargingCard, Current := OrderShipped }
        [(ChargeCard, EventContext.nil), (CreateOrder, EventContext.nil)] =
      some ([(ChargeCard, EventContext.nil), (CreateOrder, EventContext.nil)].map fun call =>
        { exit := Exit.returned Error.ErrEventRejected
          machine := { newOrderFSM with Previous := ChargingCard, Current := OrderShipped }
          ctx := call.2 }) :=
  ⟨rfl,
   C10_state_without_events_is_terminal
     { newOrderFSM with Previous := ChargingCard, Current := OrderShipped }
     { Action := some OrderShippedAction, Events := none } rfl (Or.inl rfl)
     [(ChargeCard, EventContext.nil), (CreateOrder, EventContext.nil)] 0⟩

/-- A chain of at least two transitions goes on, after its first transition,
as the chain of the event that the first action emitted. -/
theorem chain_cons_tail {κ : Type} {states : States κ} {S : StateType} {E : EventType} {ctx : κ}
    {T U : StateType} {rest : List StateType} {r : Stop × κ}
    (h : chain states S E ctx (T :: U :: rest) = some r) :
    ∃ (E2 : EventType) (ctx1 : κ), chain states T E2 ctx1 (U :: rest) = some r := by
  have hl := chain_cons_head h
  simp only [chain, hl, if_true] at h
  cases hA : (stateOf states T).Action with
  | none => simp [hA] at h
  | some action =>
    simp only [hA] at h
    cases hx : action ctx with
    | blocks => simp [hx] at h
    | panics ctx1 => simp [hx] at h
    | returns E2 ctx1 =>
      simp only [hx] at h
      by_cases hn : E2 = NoOp
      · simp [hn] at h
      · rw [if_neg hn] at h
        exact ⟨E2, ctx1, by simpa [chain] using h⟩

/-- The last transition of a chain is a transition of the table: the state
before the last one maps some event to the last one. -/
theorem chain_last_transition {κ : Type} {states : States κ} (rest : List StateType) :
    ∀ (S : StateType) (E : EventType) (ctx : κ) (T : StateType) (r : Stop × κ),
      chain states S E ctx (T :: rest) = some r →
      ∃ (P C : StateType) (E1 : EventType),
        (S :: T :: rest).dropLast.getLast? = some P ∧ (T :: rest).getLast? = some C ∧
        lookup E1 (eventTable states P) = some C := by
  induction rest with
  | nil =>
    intro S E ctx T r h
    exact ⟨S, T, E, rfl, rfl, chain_cons_head h⟩
  | cons U rest ih =>
    intro S E ctx T r h
    obtain ⟨E2, ctx1, h2⟩ := chain_cons_tail h
    obtain ⟨P, C, E1, hP, hC, hmap⟩ := ih T E2 ctx1 U r h2
    refine ⟨P, C, E1, ?_, ?_, hmap⟩
    · simpa [List.dropLast, List.getLast?_cons_cons] using hP
    · simpa [List.getLast?_cons_cons] using hC

/-- Claim C11 (idempotent-rejection law). For every state table, state and
event: when `SendEvent(E, ctx)` returns `ErrEventRejected` because the current
state does not accept `E`, the machine is as before the call, and sending `E`
again at once (with any context) returns `ErrEventRejected` as well, within one
iteration, leaving `Current` and `Previous` with the values they had before the
first call. -/
theorem C11_idempotent_rejection {κ : Type} (s : StateMachine κ) (event : EventType)
    (ctx1 ctx2 : κ) (fuel : Nat) (o1 : Outcome κ)
    (hret : SendEvent fuel s event ctx1 = some o1)
    (hrej : o1.exit = Exit.returned Error.ErrEventRejected)
    (hbecause : lookup event (eventTable s.States s.Current) = none) :
    o1.machine = s ∧ o1.ctx = ctx1 ∧
    ∀ fuel2 : Nat, ∃ o2 : Outcome κ,
      SendEvent (fuel2 + 1) o1.machine event ctx2 = some o2 ∧
      o2.exit = Exit.returned Error.ErrEventRejected ∧
      o2.machine.Current = s.Current ∧ o2.machine.Previous = s.Previous ∧
      o2.machine.States = s.States := by
  have h1 := SendEvent_mono hret (Nat.le_succ fuel)
  rw [SendEvent_rejected_of_none s event ctx1 fuel hbecause] at h1
  have ho : o1 = { exit := Exit.returned Error.ErrEventRejected, machine := s, ctx := ctx1 } :=
    (Option.some.inj h1).symm
  subst ho
  refine ⟨rfl, rfl, fun fuel2 => ⟨_, SendEvent_rejected_of_none s event ctx2 fuel2 hbecause,
    rfl, rfl, rfl, rfl⟩⟩

/-- Witness of C11: the light switch in state `Off`, sent `SwitchOff` twice. -/
theorem C11_idempotent_rejection_witness :
    lookup SwitchOff (eventTable (newLightSwitchFSM (κ := Unit)).States Off) = none ∧
    ∃ o2 : Outcome Unit,
      SendEvent 1 { (newLightSwitchFSM (κ := Unit)) with Previous := Default, Current := Off }
        SwitchOff () = some o2 ∧
      o2.exit = Exit.returned Error.ErrEventRejected ∧
      o2.machine.Current = Off ∧ o2.machine.Previous = Default :=
  ⟨by decide,
    by
      obtain ⟨o2, h, he, hc, hp, _⟩ :=
        (C11_idempotent_rejection
          { (newLightSwitchFSM (κ := Unit)) with Previous := Default, Current := Off }
          SwitchOff () () 1
          { exit := Exit.returned Error.ErrEventRejected
            machine := { (newLightSwitchFSM (κ := Unit)) with Previous := Default, Current := Off }
            ctx := () } rfl rfl (by decide)).2.2 0
      exact ⟨o2, h, he, hc, hp⟩⟩

/-- Claim C12. `Current` and `Previous` change only together and only through a
transition: after every call of `SendEvent` the `States` table is the one from
before the call, and either `Current` and `Previous` are exactly as before, or
the call took a non-empty chain of table transitions, `Current` is the last
state of that chain, `Previous` is the state that was `Current` just before the
last transition, and the event table of `Previous` maps some event to the new
`Current`. -/
theorem C12_current_and_previous_frame {κ : Type} (fuel : Nat) (s : StateMachine κ)
    (event : EventType) (eventCtx : κ) (o : Outcome κ)
    (hret : SendEvent fuel s event eventCtx = some o) :
    o.machine.States = s.States ∧
    ((o.machine.Current = s.Current ∧ o.machine.Previous = s.Previous) ∨
      ∃ (taken : List StateType) (stop : Stop),
        1 ≤ taken.length ∧
        chain s.States s.Current event eventCtx taken = some (stop, o.ctx) ∧
        o.exit = stop.exit ∧
        taken.getLast? = some o.machine.Current ∧
        (s.Current :: taken).dropLast.getLast? = some o.machine.Previous ∧
        ∃ E : EventType,
          lookup E (eventTable s.States o.machine.Previous) = some o.machine.Current) := by
  cases hl : lookup event (eventTable s.States s.Current) with
  | none =>
    obtain ⟨l, stop, _, hc, _, hm⟩ := chain_of_SendEvent fuel s event eventCtx o hret
    cases l with
    | nil => exact ⟨by rw [hm]; rfl, Or.inl ⟨by rw [hm]; rfl, by rw [hm]; rfl⟩⟩
    | cons T rest =>
      have := chain_cons_head hc
      rw [hl] at this
      cases this
  | some T =>
    obtain ⟨rest, stop, he, _, hc, hcur, hprev, hst⟩ :=
      SendEvent_entered fuel s event eventCtx o T hret hl
    obtain ⟨P, C, E1, hP, hC, hmap⟩ := chain_last_transition rest _ _ _ _ _ hc
    rw [hprev] at hP
    rw [hcur] at hC
    obtain rfl := Option.some.inj hP
    obtain rfl := Option.some.inj hC
    exact ⟨hst, Or.inr ⟨T :: rest, stop, by simp, hc, he, hcur, hprev, E1, hmap⟩⟩

/-- Witness of C12: the order machine, `CreateOrder` with an empty order; the
chain taken is `CreatingOrder`, `OrderFailed`, and `CreatingOrder` maps
`FailOrder` to `OrderFailed`. -/
theorem C12_current_and_previous_frame_witness :
    (SendEvent 2 newOrderFSM CreateOrder
        (EventContext.creation { items := [], err := none })).map Outcome.observe =
      some (Exit.returned Error.nil, CreatingOrder, OrderFailed) ∧
    ∃ E : EventType, lookup E (eventTable newOrderFSM.States CreatingOrder) = some OrderFailed := by
  refine ⟨by decide, ?_⟩
  have h := (C12_current_and_previous_frame 2 newOrderFSM CreateOrder
    (EventContext.creation { items := [], err := none })
    { exit := Exit.returned Error.nil
      machine := { newOrderFSM with Previous := CreatingOrder, Current := OrderFailed }
      ctx := EventContext.creation
        { items := [], err := some "Insufficient number of items in order" } } rfl).2
  rcases h with ⟨h, _⟩ | ⟨_, _, _, _, _, _, _, E, hE⟩
  · exact absurd h (by decide)
  · exact ⟨E, hE⟩

/-! ## Chains of one and two transitions -/

theorem chain_one_step {κ : Type} {states : States κ} {S T : StateType} {E : EventType}
    {ctx : κ} (ctx1 : κ) (action : Action κ)
    (hT : lookup E (eventTable states S) = some T)
    (hA : (stateOf states T).Action = some action)
    (hx : action ctx = Executed.returns NoOp ctx1) :
    chain states S E ctx [T] = some (Stop.settled, ctx1) := by
  simp [chain, hT, hA, hx]

theorem chain_one_panic {κ : Type} {states : States κ} {S T : StateType} {E : EventType}
    {ctx : κ} (ctx1 : κ) (action : Action κ)
    (hT : lookup E (eventTable states S) = some T)
    (hA : (stateOf states T).Action = some action)
    (hx : action ctx = Executed.panics ctx1) :
    chain states S E ctx [T] = some (Stop.actionPanic, ctx1) := by
  simp [chain, hT, hA, hx]

theorem chain_two_steps {κ : Type} {states : States κ} {S T U : StateType} {E E2 : EventType}
    {ctx : κ} (ctx1 ctx2 : κ) (actionT actionU : Action κ)
    (hT : lookup E (eventTable states S) = some T)
    (hAT : (stateOf states T).Action = some actionT)
    (hxT : actionT ctx = Executed.returns E2 ctx1) (hne : E2 ≠ NoOp)
    (hU : lookup E2 (eventTable states T) = some U)
    (hAU : (stateOf states U).Action = some actionU)
    (hxU : actionU ctx1 = Executed.returns NoOp ctx2) :
    chain states S E ctx [T, U] = some (Stop.settled, ctx2) := by
  simp [chain, hT, hAT, hxT, hne, hU, hAU, hxU]

/-! ## The order machine, call by call -/

theorem CreatingOrderAction_creation (order : OrderCreationContext) :
    CreatingOrderAction (EventContext.creation order) =
      if order.items = [] then
        Executed.returns FailOrder (EventContext.creation
          { order with err := some "Insufficient number of items in order" })
      else Executed.returns PlaceOrder (EventContext.creation order) := by
  obtain ⟨items, err⟩ := order
  cases items with
  | nil => rfl
  | cons x xs => simp [CreatingOrderAction]

theorem ChargingCardAction_shipment (shipment : OrderShipmentContext) :
    ChargingCardAction (EventContext.shipment shipment) =
      if shipment.cardNumber = "" then
        Executed.returns FailTransaction (EventContext.shipment
          { shipment with err := some "Card number is invalid" })
      else Executed.returns ShipOrder (EventContext.shipment shipment) := rfl

/-- The chain of a call of the order machine whose event is accepted into
`ChargingCard`, with an `OrderShipmentContext`. -/
theorem order_chain_ChargingCard {S : StateType} {E : EventType}
    (hT : lookup E (eventTable newOrderFSM.States S) = some ChargingCard)
    (shipment : OrderShipmentContext) :
    chain newOrderFSM.States S E (EventContext.shipment shipment)
        [ChargingCard, if shipment.cardNumber = "" then TransactionFailed else OrderShipped] =
      some (Stop.settled,
        if shipment.cardNumber = "" then
          EventContext.shipment { shipment with err := some "Card number is invalid" }
        else EventContext.shipment shipment) := by
  by_cases hc : shipment.cardNumber = ""
  · simp only [if_pos hc]
    exact chain_two_steps
      (EventContext.shipment { shipment with err := some "Card number is invalid" })
      (EventContext.shipment { shipment with err := some "Card number is invalid" })
      ChargingCardAction TransactionFailedAction hT rfl (by rw [ChargingCardAction_shipment, if_pos hc]) (by decide) (by decide) rfl rfl
  · simp only [if_neg hc]
    exact chain_two_steps (EventContext.shipment shipment) (EventContext.shipment shipment)
      ChargingCardAction OrderShippedAction hT rfl (by rw [ChargingCardAction_shipment, if_neg hc]) (by decide) (by decide) rfl rfl

/-- The chain of a call of the order machine whose event is accepted into
`CreatingOrder`, with an `OrderCreationContext`. -/
theorem order_chain_CreatingOrder {S : StateType} {E : EventType}
    (hT : lookup E (eventTable newOrderFSM.States S) = some CreatingOrder)
    (order : OrderCreationContext) :
    chain newOrderFSM.States S E (EventContext.creation order)
        [CreatingOrder, if order.items = [] then OrderFailed else OrderPlaced] =
      some (Stop.settled,
        if order.items = [] then
          EventContext.creation
            { order with err := some "Insufficient number of items in order" }
        else EventContext.creation order) := by
  by_cases hc : order.items = []
  · simp only [if_pos hc]
    exact chain_two_steps
      (EventContext.creation { order with err := some "Insufficient number of items in order" })
      (EventContext.creation { order with err := some "Insufficient number of items in order" })
      CreatingOrderAction OrderFailedAction hT rfl (by rw [CreatingOrderAction_creation, if_pos hc]) (by decide) (by decide) rfl rfl
  · simp only [if_neg hc]
    exact chain_two_steps (EventContext.creation order) (EventContext.creation order)
      CreatingOrderAction OrderPlacedAction hT rfl (by rw [CreatingOrderAction_creation, if_neg hc]) (by decide) (by decide) rfl rfl

/-- Claim C14. On the order machine, for every card number (and address, prior
`err` and prior `Previous`), `SendEvent(ChargeCard, ctx)` with `ctx` an
`OrderShipmentContext`, called from `Current = OrderPlaced` or
`Current = TransactionFailed`, returns nil within that one call (two
iterations); it settles in `Current = TransactionFailed` with `ctx.err` set when
the card number is the empty string and in `Current = OrderShipped`, the context
untouched, otherwise; in both cases `Previous = ChargingCard`. -/
theorem C14_charge_card (P S : StateType) (hS : S = OrderPlaced ∨ S = TransactionFailed)
    (shipment : OrderShipmentContext) (fuel : Nat) :
    SendEvent (fuel + 2) { Previous := P, Current := S, States := newOrderFSM.States } ChargeCard
        (EventContext.shipment shipment) =
      some
        { exit := Exit.returned Error.nil
          machine :=
            { Previous := ChargingCard
              Current := if shipment.cardNumber = "" then TransactionFailed else OrderShipped
              States := newOrderFSM.States }
          ctx :=
            if shipment.cardNumber = "" then
              EventContext.shipment { shipment with err := some "Card number is invalid" }
            else EventContext.shipment shipment } := by
  have hT : lookup ChargeCard (eventTable newOrderFSM.States S) = some ChargingCard := by
    rcases hS with rfl | rfl <;> decide
  have h := SendEvent_of_chain _ { Previous := P, Current := S, States := newOrderFSM.States }
    ChargeCard (EventContext.shipment shipment) Stop.settled _ (fuel + 2)
    (order_chain_ChargingCard hT shipment) (by simp [Stop.extra])
  rw [h]
  by_cases hc : shipment.cardNumber = "" <;> simp [hc, StateMachine.after, Stop.exit]

/-- Witness of C14: from `OrderPlaced`, with the card number `4111`. -/
theorem C14_charge_card_witness :
    SendEvent 2 { Previous := CreatingOrder, Current := OrderPlaced, States := newOrderFSM.States }
        ChargeCard
        (EventContext.shipment { cardNumber := "4111", address := "Main St", err := none }) =
      some
        { exit := Exit.returned Error.nil
          machine :=
            { Previous := ChargingCard, Current := OrderShipped, States := newOrderFSM.States }
          ctx := EventContext.shipment
            { cardNumber := "4111", address := "Main St", err := none } } :=
  C14_charge_card CreatingOrder OrderPlaced (Or.inl rfl)
    { cardNumber := "4111", address := "Main St", err := none } 0

theorem lookup_pair {α β : Type} [DecidableEq α] {e k1 k2 : α} {v1 v2 T : β}
    (h : lookup e [(k1, v1), (k2, v2)] = some T) : (e = k1 ∧ T = v1) ∨ (e = k2 ∧ T = v2) := by
  simp only [lookup] at h
  by_cases he : e = k1
  · rw [if_pos he] at h
    exact Or.inl ⟨he, (Option.some.inj h).symm⟩
  · rw [if_neg he] at h
    by_cases he2 : e = k2
    · rw [if_pos he2] at h
      exact Or.inr ⟨he2, (Option.some.inj h).symm⟩
    · rw [if_neg he2] at h
      cases h

/-- The transitions of the order table. -/
theorem order_accepts (S T : StateType) (e : EventType)
    (h : lookup e (eventTable newOrderFSM.States S) = some T) :
    ((S = Default ∨ S = OrderFailed) ∧ e = CreateOrder ∧ T = CreatingOrder) ∨
    (S = CreatingOrder ∧ (e = FailOrder ∧ T = OrderFailed ∨ e = PlaceOrder ∧ T = OrderPlaced)) ∨
    ((S = OrderPlaced ∨ S = TransactionFailed) ∧ e = ChargeCard ∧ T = ChargingCard) ∨
    (S = ChargingCard ∧
      (e = FailTransaction ∧ T = TransactionFailed ∨ e = ShipOrder ∧ T = OrderShipped)) := by
  simp only [eventTable, newOrderFSM, lookup] at h
  by_cases h0 : S = Default
  · simp only [h0, if_true] at h
    exact Or.inl ⟨Or.inl h0, lookup_single h⟩
  simp only [h0, if_false] at h
  by_cases h1 : S = CreatingOrder
  · simp only [h1, if_true] at h
    exact Or.inr (Or.inl ⟨h1, lookup_pair h⟩)
  simp only [h1, if_false] at h
  by_cases h2 : S = OrderFailed
  · simp only [h2, if_true] at h
    exact Or.inl ⟨Or.inr h2, lookup_single h⟩
  simp only [h2, if_false] at h
  by_cases h3 : S = OrderPlaced
  · simp only [h3, if_true] at h
    exact Or.inr (Or.inr (Or.inl ⟨Or.inl h3, lookup_single h⟩))
  simp only [h3, if_false] at h
  by_cases h4 : S = ChargingCard
  · simp only [h4, if_true] at h
    exact Or.inr (Or.inr (Or.inr ⟨h4, lookup_pair h⟩))
  simp only [h4, if_false] at h
  by_cases h5 : S = TransactionFailed
  · simp only [h5, if_true] at h
    exact Or.inr (Or.inr (Or.inl ⟨Or.inr h5, lookup_single h⟩))
  simp only [h5, if_false] at h
  by_cases h6 : S = OrderShipped
  · simp only [h6, if_true] at h
    cases h
  simp only [h6, if_false] at h
  cases h

/-- A call of the order machine whose event is accepted into `T`: it takes one
or two transitions and then stops, in `settledStates` when the context has the
type that the action of `T` asserts, by a panic of that action otherwise. -/
theorem order_entered (S T : StateType) (e : EventType)
    (hT : lookup e (eventTable newOrderFSM.States S) = some T) (ctx : EventContext) :
    ∃ (rest : List StateType) (stop : Stop) (ctx1 : EventContext),
      chain newOrderFSM.States S e ctx (T :: rest) = some (stop, ctx1) ∧ rest.length ≤ 1 ∧
      (stop = Stop.settled ∨ stop = Stop.actionPanic) ∧
      (expects T ctx = true →
        stop = Stop.settled ∧ ∃ C, (T :: rest).getLast? = some C ∧ C ∈ settledStates) := by
  have hTs : T = CreatingOrder ∨ T = OrderFailed ∨ T = OrderPlaced ∨ T = ChargingCard ∨
      T = TransactionFailed ∨ T = OrderShipped := by
    rcases order_accepts S T e hT with ⟨_, _, h⟩ | ⟨_, ⟨_, h⟩ | ⟨_, h⟩⟩ | ⟨_, _, h⟩ |
      ⟨_, ⟨_, h⟩ | ⟨_, h⟩⟩ <;> simp [h]
  rcases hTs with rfl | rfl | rfl | rfl | rfl | rfl
  · cases ctx with
    | creation order =>
      refine ⟨_, _, _, order_chain_CreatingOrder hT order, by simp, Or.inl rfl, fun _ => ⟨rfl, ?_⟩⟩
      by_cases hc : order.items = [] <;> simp [hc, settledStates]
    | nil =>
      exact ⟨[], _, _, chain_one_panic EventContext.nil CreatingOrderAction hT rfl rfl, by simp,
        Or.inr rfl, fun h => by cases (show false = true from h)⟩
    | shipment c =>
      exact ⟨[], _, _, chain_one_panic (EventContext.shipment c) CreatingOrderAction hT rfl rfl,
        by simp, Or.inr rfl, fun h => by cases (show false = true from h)⟩
  · cases ctx with
    | creation order =>
      exact ⟨[], _, _, chain_one_step (EventContext.creation order) OrderFailedAction hT rfl rfl,
        by simp, Or.inl rfl, fun _ => ⟨rfl, _, rfl, by simp [settledStates]⟩⟩
    | nil =>
      exact ⟨[], _, _, chain_one_panic EventContext.nil OrderFailedAction hT rfl rfl, by simp,
        Or.inr rfl, fun h => by cases (show false = true from h)⟩
    | shipment c =>
      exact ⟨[], _, _, chain_one_panic (EventContext.shipment c) OrderFailedAction hT rfl rfl,
        by simp, Or.inr rfl, fun h => by cases (show false = true from h)⟩
  · cases ctx with
    | creation order =>
      exact ⟨[], _, _, chain_one_step (EventContext.creation order) OrderPlacedAction hT rfl rfl,
        by simp, Or.inl rfl, fun _ => ⟨rfl, _, rfl, by simp [settledStates]⟩⟩
    | nil =>
      exact ⟨[], _, _, chain_one_panic EventContext.nil OrderPlacedAction hT rfl rfl, by simp,
        Or.inr rfl, fun h => by cases (show false = true from h)⟩
    | shipment c =>
      exact ⟨[], _, _, chain_one_panic (EventContext.shipment c) OrderPlacedAction hT rfl rfl,
        by simp, Or.inr rfl, fun h => by cases (show false = true from h)⟩
  · cases ctx with
    | shipment shipment =>
      refine ⟨_, _, _, order_chain_ChargingCard hT shipment, by simp, Or.inl rfl,
        fun _ => ⟨rfl, ?_⟩⟩
      by_cases hc : shipment.cardNumber = "" <;> simp [hc, settledStates]
    | nil =>
      exact ⟨[], _, _, chain_one_panic EventContext.nil ChargingCardAction hT rfl rfl, by simp,
        Or.inr rfl, fun h => by cases (show false = true from h)⟩
    | creation c =>
      exact ⟨[], _, _, chain_one_panic (EventContext.creation c) ChargingCardAction hT rfl rfl,
        by simp, Or.inr rfl, fun h => by cases (show false = true from h)⟩
  · cases ctx with
    | shipment shipment =>
      exact ⟨[], _, _,
        chain_one_step (EventContext.shipment shipment) TransactionFailedAction hT rfl rfl,
        by simp, Or.inl rfl, fun _ => ⟨rfl, _, rfl, by simp [settledStates]⟩⟩
    | nil =>
      exact ⟨[], _, _, chain_one_panic EventContext.nil TransactionFailedAction hT rfl rfl,
        by simp, Or.inr rfl, fun h => by cases (show false = true from h)⟩
    | creation c =>
      exact ⟨[], _, _,
        chain_one_panic (EventContext.creation c) TransactionFailedAction hT rfl rfl,
        by simp, Or.inr rfl, fun h => by cases (show false = true from h)⟩
  · cases ctx with
    | shipment shipment =>
      exact ⟨[], _, _,
        chain_one_step (EventContext.shipment shipment) OrderShippedAction hT rfl rfl,
        by simp, Or.inl rfl, fun _ => ⟨rfl, _, rfl, by simp [settledStates]⟩⟩
    | nil =>
      exact ⟨[], _, _, chain_one_panic EventContext.nil OrderShippedAction hT rfl rfl,
        by simp, Or.inr rfl, fun h => by cases (show false = true from h)⟩
    | creation c =>
      exact ⟨[], _, _,
        chain_one_panic (EventContext.creation c) OrderShippedAction hT rfl rfl,
        by simp, Or.inr rfl, fun h => by cases (show false = true from h)⟩

/-- One disciplined call on the order machine at rest: it returns, nil or
`ErrEventRejected`, within two iterations, and the machine is at rest again. -/
theorem order_step_disciplined (s : StateMachine EventContext)
    (hs : s.States = newOrderFSM.States) (hrest : s.Current ∈ settledStates)
    (e : EventType) (ctx : EventContext) (hd : disciplined (e, ctx) = true) (fuel : Nat) :
    ∃ o, SendEvent (fuel + 2) s e ctx = some o ∧ o.machine.States = newOrderFSM.States ∧
      (o.exit = Exit.returned Error.nil ∨ o.exit = Exit.returned Error.ErrEventRejected) ∧
      o.machine.Current ∈ settledStates := by
  cases hl : lookup e (eventTable s.States s.Current) with
  | none =>
    exact ⟨_, SendEvent_rejected_of_none s e ctx (fuel + 1) hl, hs, Or.inr rfl, hrest⟩
  | some T =>
    have hl2 := hl
    rw [hs] at hl2
    have hexp : expects T ctx = true := by
      rcases order_accepts _ _ _ hl2 with ⟨_, rfl, rfl⟩ | ⟨hS, _⟩ | ⟨_, rfl, rfl⟩ | ⟨hS, _⟩
      · have h1 : disciplined (CreateOrder, ctx) = (isCreation ctx && true) := rfl
        rw [h1, Bool.and_true] at hd
        exact hd
      · rw [hS] at hrest
        exact absurd hrest (by decide)
      · have h1 : disciplined (ChargeCard, ctx) = (true && isShipment ctx) := rfl
        rw [h1, Bool.true_and] at hd
        exact hd
      · rw [hS] at hrest
        exact absurd hrest (by decide)
    obtain ⟨rest, stop, ctx1, hc, hlen, _, hset⟩ := order_entered _ _ _ hl2 ctx
    obtain ⟨rfl, C, hC, hmem⟩ := hset hexp
    rw [← hs] at hc
    have hrun := SendEvent_of_chain (T :: rest) s e ctx Stop.settled ctx1 (fuel + 2) hc
      (by simp [Stop.extra]; omega)
    refine ⟨_, hrun, by rw [after_States]; exact hs, Or.inl rfl, ?_⟩
    have hcur := after_Current (T :: rest) s
    rw [List.getLast?_cons_cons, hC] at hcur
    rw [← Option.some.inj hcur]
    exact hmem

theorem order_run_disciplined (calls : List (EventType × EventContext)) (fuel : Nat) :
    ∀ s : StateMachine EventContext, s.States = newOrderFSM.States →
      s.Current ∈ settledStates → (∀ call ∈ calls, disciplined call = true) →
      ∃ os, SendEvents (fuel + 2) s calls = some os ∧ os.length = calls.length ∧
        ∀ o ∈ os,
          (o.exit = Exit.returned Error.nil ∨ o.exit = Exit.returned Error.ErrEventRejected) ∧
          o.machine.Current ∈ settledStates := by
  induction calls with
  | nil => intro s _ _ _; exact ⟨[], rfl, rfl, by simp⟩
  | cons call rest ih =>
    intro s hs hrest hd
    obtain ⟨e, ctx⟩ := call
    obtain ⟨o, ho, hso, hexit, hcur⟩ :=
      order_step_disciplined s hs hrest e ctx (hd (e, ctx) (List.mem_cons_self _ _)) fuel
    obtain ⟨os, hos, hlen, hall⟩ :=
      ih o.machine hso hcur (fun call hc => hd call (List.mem_cons_of_mem _ hc))
    refine ⟨o :: os, by simp only [SendEvents, ho, hos], by simp [hlen], ?_⟩
    intro o2 ho2
    rcases List.mem_cons.mp ho2 with rfl | h
    · exact ⟨hexit, hcur⟩
    · exact hall o2 h

/-- Claim C15. The caller never observes an intermediate chain state of the
order machine: for every finite sequence of `SendEvent` calls on a freshly
constructed order machine in which `CreateOrder` is always sent with an
`OrderCreationContext` and `ChargeCard` with an `OrderShipmentContext`, every
call returns (nil or `ErrEventRejected`, within two iterations) and after each
call `Current` is one of `Default`, `OrderFailed`, `OrderPlaced`,
`TransactionFailed`, `OrderShipped`, never `CreatingOrder` or `ChargingCard`. -/
theorem C15_no_intermediate_state_observed (calls : List (EventType × EventContext))
    (hdisciplined : ∀ call ∈ calls, disciplined call = true) (fuel : Nat) :
    ∃ os : List (Outcome EventContext),
      SendEvents (fuel + 2) newOrderFSM calls = some os ∧ os.length = calls.length ∧
      ∀ o ∈ os,
        (o.exit = Exit.returned Error.nil ∨ o.exit = Exit.returned Error.ErrEventRejected) ∧
        o.machine.Current ∈ settledStates ∧
        o.machine.Current ≠ CreatingOrder ∧ o.machine.Current ≠ ChargingCard := by
  obtain ⟨os, hos, hlen, hall⟩ :=
    order_run_disciplined calls fuel newOrderFSM rfl (by decide) hdisciplined
  refine ⟨os, hos, hlen, fun o ho => ?_⟩
  obtain ⟨hexit, hcur⟩ := hall o ho
  refine ⟨hexit, hcur, ?_, ?_⟩
  · intro h
    rw [h] at hcur
    exact absurd hcur (by decide)
  · intro h
    rw [h] at hcur
    exact absurd hcur (by decide)

/-- Witness of C15: an order with no item, a second order, a rejected
`ShipOrder` sent by the caller, and a payment with an empty card number. -/
theorem C15_no_intermediate_state_observed_witness :
    ∃ os : List (Outcome EventContext),
      SendEvents 2 newOrderFSM
          [(CreateOrder, EventContext.creation { items := [], err := none }),
           (CreateOrder, EventContext.creation { items := ["book"], err := none }),
           (ShipOrder, EventContext.nil),
           (ChargeCard, EventContext.shipment
             { cardNumber := "", address := "Main St", err := none })] = some os ∧
      os.length = 4 ∧
      ∀ o ∈ os,
        (o.exit = Exit.returned Error.nil ∨ o.exit = Exit.returned Error.ErrEventRejected) ∧
        o.machine.Current ∈ settledStates ∧
        o.machine.Current ≠ CreatingOrder ∧ o.machine.Current ≠ ChargingCard :=
  C15_no_intermediate_state_observed
    [(CreateOrder, EventContext.creation { items := [], err := none }),
     (CreateOrder, EventContext.creation { items := ["book"], err := none }),
     (ShipOrder, EventContext.nil),
     (ChargeCard, EventContext.shipment
       { cardNumber := "", address := "Main St", err := none })]
    (by decide) 0

/-- A call of the light switch whose event is accepted into `T` takes that one
transition and settles. -/
theorem lightSwitch_entered {κ : Type} (S T : StateType) (e : EventType) (c : κ)
    (hT : lookup e (eventTable (newLightSwitchFSM (κ := κ)).States S) = some T) :
    chain (newLightSwitchFSM (κ := κ)).States S e c [T] = some (Stop.settled, c) := by
  rcases lightSwitch_accepts S T e hT with ⟨_, rfl⟩ | ⟨_, rfl⟩
  · exact chain_one_step c OffAction hT rfl rfl
  · exact chain_one_step c OnAction hT rfl rfl

/-- Claim C18. On the two shipped configurations the loop of `SendEvent` is
bounded.  On the light-switch machine every call, from any state with any event
and context, is over within one iteration, after at most one transition, and
returns nil or `ErrEventRejected`.  On the order machine every call, from any
state with any event and context, is over within two iterations, after at most
two transitions, and never on a nil `Action`; when the context has the type
that the actions of the states entered expect, the call returns nil or
`ErrEventRejected`. -/
theorem C18_loops_are_bounded {κ : Type} :
    (∀ (P S : StateType) (e : EventType) (c : κ) (fuel : Nat),
      ∃ (o : Outcome κ) (taken : List StateType) (stop : Stop),
        SendEvent (fuel + 1)
          { Previous := P, Current := S, States := (newLightSwitchFSM (κ := κ)).States } e c =
          some o ∧
        chain (newLightSwitchFSM (κ := κ)).States S e c taken = some (stop, o.ctx) ∧
        o.exit = stop.exit ∧ taken.length ≤ 1 ∧
        (o.exit = Exit.returned Error.nil ∨ o.exit = Exit.returned Error.ErrEventRejected)) ∧
    (∀ (P S : StateType) (e : EventType) (ctx : EventContext) (fuel : Nat),
      ∃ (o : Outcome EventContext) (taken : List StateType) (stop : Stop),
        SendEvent (fuel + 2) { Previous := P, Current := S, States := newOrderFSM.States } e ctx =
          some o ∧
        chain newOrderFSM.States S e ctx taken = some (stop, o.ctx) ∧
        o.exit = stop.exit ∧ taken.length ≤ 2 ∧
        o.exit ≠ Exit.panicked Panic.nilAction ∧
        ((∀ U ∈ taken, expects U ctx = true) →
          o.exit = Exit.returned Error.nil ∨ o.exit = Exit.returned Error.ErrEventRejected)) := by
  constructor
  · intro P S e c fuel
    cases hl : lookup e (eventTable (newLightSwitchFSM (κ := κ)).States S) with
    | none =>
      exact ⟨_, [], Stop.rejected,
        SendEvent_rejected_of_none
          { Previous := P, Current := S, States := (newLightSwitchFSM (κ := κ)).States } e c fuel
          hl,
        by simp [chain, hl], rfl, by simp, Or.inr rfl⟩
    | some T =>
      have hc := lightSwitch_entered S T e c hl
      exact ⟨_, [T], Stop.settled,
        SendEvent_of_chain [T]
          { Previous := P, Current := S, States := (newLightSwitchFSM (κ := κ)).States } e c
          Stop.settled c (fuel + 1) hc (by simp [Stop.extra]),
        hc, rfl, by simp, Or.inl rfl⟩
  · intro P S e ctx fuel
    cases hl : lookup e (eventTable newOrderFSM.States S) with
    | none =>
      exact ⟨_, [], Stop.rejected,
        SendEvent_rejected_of_none
          { Previous := P, Current := S, States := newOrderFSM.States } e ctx (fuel + 1) hl,
        by simp [chain, hl], rfl, by simp, by simp, fun _ => Or.inr rfl⟩
    | some T =>
      obtain ⟨rest, stop, ctx1, hc, hlen, hstop, hset⟩ := order_entered S T e hl ctx
      refine ⟨_, T :: rest, stop,
        SendEvent_of_chain (T :: rest)
          { Previous := P, Current := S, States := newOrderFSM.States } e ctx stop ctx1
          (fuel + 2) hc ?_,
        hc, rfl, by simp; omega, ?_, fun hall => ?_⟩
      · rcases hstop with rfl | rfl <;> simp [Stop.extra] <;> omega
      · rcases hstop with rfl | rfl <;> simp [Stop.exit]
      · obtain ⟨rfl, _⟩ := hset (hall T (List.mem_cons_self _ _))
        exact Or.inl rfl

/-- Witness of C18: `CreateOrder` from `Default` with an order of one item takes
the two transitions into `CreatingOrder` and `OrderPlaced`. -/
theorem C18_loops_are_bounded_witness :
    ∃ (o : Outcome EventContext) (taken : List StateType) (stop : Stop),
      SendEvent 2 { Previous := Default, Current := Default, States := newOrderFSM.States }
          CreateOrder (EventContext.creation { items := ["book"], err := none }) = some o ∧
      chain newOrderFSM.States Default CreateOrder
          (EventContext.creation { items := ["book"], err := none }) taken = some (stop, o.ctx) ∧
      o.exit = stop.exit ∧ taken.length ≤ 2 ∧
      o.exit ≠ Exit.panicked Panic.nilAction ∧
      ((∀ U ∈ taken, expects U (EventContext.creation { items := ["book"], err := none }) = true) →
        o.exit = Exit.returned Error.nil ∨ o.exit = Exit.returned Error.ErrEventRejected) :=
  (C18_loops_are_bounded (κ := Unit)).2 Default Default CreateOrder
    (EventContext.creation { items := ["book"], err := none }) 0

/-! ## Destinations and well-formed tables -/

theorem lookup_mem {α β : Type} [DecidableEq α] {k : α} {v : β} :
    ∀ {l : List (α × β)}, lookup k l = some v → (k, v) ∈ l := by
  intro l
  induction l with
  | nil => intro h; cases h
  | cons p rest ih =>
    intro h
    obtain ⟨k2, v2⟩ := p
    simp only [lookup] at h
    by_cases hk : k = k2
    · rw [if_pos hk] at h
      obtain rfl := Option.some.inj h
      rw [hk]
      exact List.mem_cons_self _ _
    · rw [if_neg hk] at h
      exact List.mem_cons_of_mem _ (ih h)

theorem mem_destinations_of_mem {κ : Type} {S T : StateType} {E : EventType} {state : State κ}
    {events : List (EventType × StateType)} (hE : state.Events = some events)
    (hT : (E, T) ∈ events) :
    ∀ {states : States κ}, (S, state) ∈ states → T ∈ destinations states := by
  intro states
  induction states with
  | nil => intro h; cases h
  | cons p rest ih =>
    intro h
    obtain ⟨S2, state2⟩ := p
    simp only [destinations]
    rcases List.mem_cons.mp h with heq | hmem
    · obtain ⟨_, rfl⟩ := Prod.mk.inj heq
      rw [hE]
      exact List.mem_append_left _ (List.mem_map.mpr ⟨(E, T), hT, rfl⟩)
    · exact List.mem_append_right _ (ih hmem)

/-- The state that an event table of the table maps an event to is one of the
destinations of the table. -/
theorem mem_destinations {κ : Type} {states : States κ} {S T : StateType} {E : EventType}
    (h : lookup E (eventTable states S) = some T) : T ∈ destinations states := by
  unfold eventTable at h
  cases hS : lookup S states with
  | none => simp [hS, lookup] at h
  | some state =>
    simp only [hS] at h
    cases hE : state.Events with
    | none => simp [hE, lookup] at h
    | some events =>
      simp only [hE] at h
      exact mem_destinations_of_mem hE (lookup_mem h) (lookup_mem hS)

/-- Every state entered by a chain is a destination of the table. -/
theorem chain_mem_destinations {κ : Type} {states : States κ} (l : List StateType) :
    ∀ (S : StateType) (E : EventType) (ctx : κ) (r : Stop × κ),
      chain states S E ctx l = some r → ∀ T ∈ l, T ∈ destinations states := by
  induction l with
  | nil => intro _ _ _ _ _ T hT; cases hT
  | cons T rest ih =>
    intro S E ctx r h U hU
    rcases List.mem_cons.mp hU with rfl | hmem
    · exact mem_destinations (chain_cons_head h)
    · cases rest with
      | nil => cases hmem
      | cons V rest2 =>
        obtain ⟨E2, ctx1, h2⟩ := chain_cons_tail h
        exact ih T E2 ctx1 r h2 U hmem

/-- A chain stops on a nil `Action` only in a state without `Action`. -/
theorem chain_nilAction {κ : Type} {states : States κ} (l : List StateType) :
    ∀ (S : StateType) (E : EventType) (ctx ctx1 : κ),
      chain states S E ctx l = some (Stop.nilAction, ctx1) →
      ∃ T ∈ l, (stateOf states T).Action = none := by
  induction l with
  | nil =>
    intro S E ctx ctx1 h
    obtain ⟨_, hr⟩ := chain_nil_eq _ _ _ _ _ h
    cases hr
  | cons T rest ih =>
    intro S E ctx ctx1 h
    cases rest with
    | cons V rest2 =>
      obtain ⟨E2, ctx2, h2⟩ := chain_cons_tail h
      obtain ⟨U, hU, hA⟩ := ih T E2 ctx2 ctx1 h2
      exact ⟨U, List.mem_cons_of_mem _ hU, hA⟩
    | nil =>
      have hl := chain_cons_head h
      simp only [chain, hl, if_true] at h
      cases hA : (stateOf states T).Action with
      | none => exact ⟨T, List.mem_cons_self _ _, hA⟩
      | some action =>
        simp only [hA] at h
        cases hx : action ctx with
        | blocks => simp [hx] at h
        | panics c => simp [hx] at h
        | returns E2 c =>
          simp only [hx] at h
          by_cases hn : E2 = NoOp
          · simp [hn] at h
          · simp only [if_neg hn] at h
            obtain ⟨_, hr⟩ := chain_nil_eq _ _ _ _ _ h
            cases hr

theorem hasAction_iff {κ : Type} (states : States κ) (T : StateType) :
    hasAction states T = true ↔ ∃ action, (stateOf states T).Action = some action := by
  unfold hasAction stateOf
  cases lookup T states with
  | none => simp
  | some state =>
    simp only
    cases state.Action with
    | none => simp
    | some action => simp

/-- Claim C16. Under a well-formed table (every state named as the destination
of some event is a key of `States` and has a non-nil `Action`), `SendEvent`
never invokes `Execute` on a nil `Action`: for every start state, event and
context, a call never ends in the nil-`Action` failure, every state it enters
has an `Action`, and a call that returns returns nil or `ErrEventRejected`. -/
theorem C16_no_nil_action_in_well_formed_table {κ : Type} (s : StateMachine κ)
    (hwf : wellFormed s.States = true) (event : EventType) (eventCtx : κ) (fuel : Nat)
    (o : Outcome κ) (hret : SendEvent fuel s event eventCtx = some o) :
    o.exit ≠ Exit.panicked Panic.nilAction ∧
    (∀ err : Error, o.exit = Exit.returned err →
      err = Error.nil ∨ err = Error.ErrEventRejected) ∧
    ∃ (taken : List StateType) (stop : Stop),
      chain s.States s.Current event eventCtx taken = some (stop, o.ctx) ∧
      o.exit = stop.exit ∧ stop ≠ Stop.nilAction ∧
      ∀ T ∈ taken, ∃ action, (stateOf s.States T).Action = some action := by
  obtain ⟨l, stop, _, hc, he, _⟩ := chain_of_SendEvent fuel s event eventCtx o hret
  have hact : ∀ T ∈ l, ∃ action, (stateOf s.States T).Action = some action := by
    intro T hT
    have hd := chain_mem_destinations l _ _ _ _ hc T hT
    exact (hasAction_iff s.States T).mp (List.all_eq_true.mp hwf T hd)
  have hstop : stop ≠ Stop.nilAction := by
    rintro rfl
    obtain ⟨T, hT, hA⟩ := chain_nilAction l _ _ _ _ hc
    obtain ⟨action, hA2⟩ := hact T hT
    rw [hA] at hA2
    cases hA2
  refine ⟨?_, ?_, l, stop, hc, he, hstop, hact⟩
  · intro h
    rw [he] at h
    exact hstop (Stop.exit_injective h)
  · intro err _
    cases err
    · exact Or.inl rfl
    · exact Or.inr rfl

/-- Witness of C16: the order table is well formed; `CreateOrder` from
`Default` with an order of one item does not end on a nil `Action`. -/
theorem C16_no_nil_action_in_well_formed_table_witness :
    wellFormed newOrderFSM.States = true ∧
    ∃ o, SendEvent 2 newOrderFSM CreateOrder
        (EventContext.creation { items := ["book"], err := none }) = some o ∧
      o.exit ≠ Exit.panicked Panic.nilAction :=
  ⟨by decide, _, rfl,
    (C16_no_nil_action_in_well_formed_table newOrderFSM (by decide) CreateOrder
      (EventContext.creation { items := ["book"], err := none }) 2 _ rfl).1⟩

/-- After a call, `Current` is the state from before the call or a destination
of the table, and the table is the same. -/
theorem SendEvent_Current_mem {κ : Type} (fuel : Nat) (s : StateMachine κ) (event : EventType)
    (eventCtx : κ) (o : Outcome κ) (hret : SendEvent fuel s event eventCtx = some o) :
    o.machine.States = s.States ∧
    (o.machine.Current = s.Current ∨ o.machine.Current ∈ destinations s.States) := by
  obtain ⟨l, stop, _, hc, _, hm⟩ := chain_of_SendEvent fuel s event eventCtx o hret
  refine ⟨by rw [hm]; exact after_States l s, ?_⟩
  cases l with
  | nil => exact Or.inl (by rw [hm]; rfl)
  | cons T rest =>
    have hcur := after_Current (T :: rest) s
    rw [List.getLast?_cons_cons, ← hm] at hcur
    exact Or.inr (chain_mem_destinations (T :: rest) _ _ _ _ hc _
      (List.mem_of_getLast?_eq_some hcur))

theorem SendEvents_keys {κ : Type} (states : States κ) (hclosed : closedTable states = true)
    (fuel : Nat) (calls : List (EventType × κ)) :
    ∀ (s : StateMachine κ) (os : List (Outcome κ)), s.States = states →
      isKey states s.Current = true → SendEvents fuel s calls = some os →
      ∀ o ∈ os, isKey states o.machine.Current = true := by
  induction calls with
  | nil =>
    intro s os _ _ h o ho
    simp only [SendEvents, Option.some.injEq] at h
    subst h
    cases ho
  | cons call rest ih =>
    intro s os hs hkey h o ho
    obtain ⟨event, eventCtx⟩ := call
    simp only [SendEvents] at h
    cases h1 : SendEvent fuel s event eventCtx with
    | none => simp [h1] at h
    | some o1 =>
      simp only [h1] at h
      cases h2 : SendEvents fuel o1.machine rest with
      | none => simp [h2] at h
      | some os2 =>
        simp only [h2, Option.some.injEq] at h
        subst h
        obtain ⟨hst, hcur⟩ := SendEvent_Current_mem fuel s event eventCtx o1 h1
        have hkey1 : isKey states o1.machine.Current = true := by
          rcases hcur with h | h
          · rw [h]; exact hkey
          · rw [hs] at h
            exact List.all_eq_true.mp hclosed _ h
        rcases List.mem_cons.mp ho with rfl | hmem
        · exact hkey1
        · exact ih o1.machine os2 (by rw [hst, hs]) hkey1 h2 o hmem

/-- Claim C17 (closure of the configured state set). On a table in which every
state named as the destination of some event is a key of `States`: when
`Current` is a key of `States` before a call of `SendEvent`, it is a key of
`States` after the call, whatever the event, the context and the outcome; hence,
when `Default` is a key too, after every call of every sequence of calls on a
fresh machine `Current` is a key of `States`. -/
theorem C17_configured_states_are_closed {κ : Type} (states : States κ)
    (hclosed : closedTable states = true) :
    (∀ (s : StateMachine κ) (event : EventType) (eventCtx : κ) (fuel : Nat) (o : Outcome κ),
      s.States = states → isKey states s.Current = true →
      SendEvent fuel s event eventCtx = some o → isKey states o.machine.Current = true) ∧
    (isKey states Default = true →
      ∀ (calls : List (EventType × κ)) (fuel : Nat) (os : List (Outcome κ)),
        SendEvents fuel { Previous := Default, Current := Default, States := states } calls =
          some os →
        ∀ o ∈ os, isKey states o.machine.Current = true) := by
  constructor
  · intro s event eventCtx fuel o hs hkey hret
    obtain ⟨_, hcur⟩ := SendEvent_Current_mem fuel s event eventCtx o hret
    rcases hcur with h | h
    · rw [h]; exact hkey
    · rw [hs] at h
      exact List.all_eq_true.mp hclosed _ h
  · intro hdef calls fuel os h
    exact SendEvents_keys states hclosed fuel calls _ os rfl hdef h

/-- Witness of C17: the order table is closed and has `Default`; after
`CreateOrder` with an empty order, `Current = OrderFailed` is a key. -/
theorem C17_configured_states_are_closed_witness :
    closedTable newOrderFSM.States = true ∧ isKey newOrderFSM.States Default = true ∧
    isKey newOrderFSM.States OrderFailed = true :=
  ⟨by decide, by decide,
    (C17_configured_states_are_closed newOrderFSM.States (by decide)).1 newOrderFSM CreateOrder
      (EventContext.creation { items := [], err := none }) 2
      { exit := Exit.returned Error.nil
        machine := { newOrderFSM with Previous := CreatingOrder, Current := OrderFailed }
        ctx := EventContext.creation
          { items := [], err := some "Insufficient number of items in order" } }
      rfl (by decide) rfl⟩

/-- Claim C19. The traffic-light machine cycles with period three: one
`Transition` moves `RedLight` to `GreenLight`, `GreenLight` to `YellowLight` and
`YellowLight` to `RedLight` (printing the line of the light entered and leaving
the `states` map alone), so a `Transition` never leaves the light unchanged, and
three consecutive `Transition`s bring the machine back to the light it started
from. -/
theorem C19_traffic_light_has_period_three (sm : TrafficStateMachine) :
    sm.Transition.1.currentState =
      (match sm.currentState with
        | TrafficState.RedLight => TrafficState.GreenLight
        | TrafficState.GreenLight => TrafficState.YellowLight
        | TrafficState.YellowLight => TrafficState.RedLight) ∧
    sm.Transition.2 = sm.Transition.1.currentState.Enter ∧
    sm.Transition.1.states = sm.states ∧
    sm.Transition.1.currentState ≠ sm.currentState ∧
    (transitions 1 sm).1.currentState ≠ sm.currentState ∧
    (transitions 2 sm).1.currentState ≠ sm.currentState ∧
    (transitions 3 sm).1 = sm := by
  obtain ⟨light, states⟩ := sm
  cases light <;>
    exact ⟨rfl, rfl, rfl, (fun h => by cases h), (fun h => by cases h), (fun h => by cases h),
      rfl⟩

end StateMachineGo
